import Mathlib

/-!
Shallow embedding of the rhizoo-quant core (rhizoo-alpha-bot) and proofs
about it.

Sources embedded:
* `data/processor.py` — `ImbalanceTracker` (sliding-window nOFI, price
  efficiency, volume Z-score) and `LevelTracker` (candle synthesis, level
  recomputation, per-level sweep-hunt state machines).
* `core/risk_manager.py` — `RiskManager` (circuit breakers, spread guard,
  position sizing, signal validation).

Conventions of the embedding:
* Python floats are modelled as exact rationals (`ℚ`); the one genuinely
  irrational operation, `np.std` (a square root), is modelled in `ℝ`.
* Python's `round(x, n)` is modelled as `pyround n x = ⌊x·10ⁿ + 1/2⌋ / 10ⁿ`
  (round-half-up; Python uses round-half-even on binary floats — the two
  agree away from exact decimal ties, and every concrete input used in a
  theorem below is tie-free).
* Wall-clock reads (`time.time()`, `datetime.now(timezone.utc)`) become
  explicit parameters (`now_ms`, `now`, `today`).
* Fallible numpy operations (`np.add.at` with an out-of-range index,
  `np.zeros` with a negative size) are modelled with `Option`: `none`
  is a raised exception.
* Stateful methods become functions `state → args → result × state`.
-/

namespace Rhizoo

/-! ## Numeric helpers -/

/-- Python `round(x, n)` on exact rationals: round-half-up at `n` decimal
digits. -/
def pyround (n : ℕ) (x : ℚ) : ℚ :=
  ((round (x * 10 ^ n) : ℤ) : ℚ) / 10 ^ n

/-- `round(x, n)` for the one real-valued quantity (the volume Z-score). -/
noncomputable def pyroundR (n : ℕ) (x : ℝ) : ℝ :=
  ((round (x * 10 ^ n) : ℤ) : ℝ) / 10 ^ n

/-- Mean of a list of rationals (`np.mean`); 0 on the empty list. -/
def qmean (l : List ℚ) : ℚ := l.sum / l.length

/-- `np.std(l, ddof=1)` as a real number, with the source's guard: the code
only calls it when the list has at least two elements and substitutes `0.0`
otherwise (`std = ... if len(hist_vols) > 1 else 0.0`). -/
noncomputable def npStd1 (l : List ℚ) : ℝ :=
  if 1 < l.length then
    Real.sqrt (((l.map (fun x => ((x - qmean l : ℚ) : ℝ) ^ 2)).sum) / (l.length - 1))
  else 0

/-- Maximum of a list (`np.max`); 0 on the empty list (never hit: the source
only reduces nonempty arrays). -/
def qmax : List ℚ → ℚ
  | [] => 0
  | x :: xs => xs.foldl max x

/-- Minimum of a list (`np.min`); 0 on the empty list. -/
def qmin : List ℚ → ℚ
  | [] => 0
  | x :: xs => xs.foldl min x

/-- Numpy index resolution on a length-`n` axis: `0 ≤ i < n` is itself,
`-n ≤ i < 0` wraps to `n + i`, anything else is out of bounds. -/
def npIndex (n : ℕ) (i : ℤ) : Option ℕ :=
  if 0 ≤ i ∧ i < (n : ℤ) then some i.toNat
  else if -(n : ℤ) ≤ i ∧ i < 0 then some ((n : ℤ) + i).toNat
  else none

/-- `np.add.at v ids amts`: accumulate `amts` into `v` at (possibly negative)
indices `ids`; an out-of-range index raises (`none`). -/
def addAt (v : List ℚ) : List ℤ → List ℚ → Option (List ℚ)
  | [], _ => some v
  | _ :: _, [] => some v
  | i :: is, a :: as =>
    match npIndex v.length i with
    | none => none
    | some j => addAt (v.set j (v.getD j 0 + a)) is as

/-- `np.zeros m`. -/
def zerosQ (m : ℕ) : List ℚ := List.replicate m 0

/-! ## Imbalance Engine (`ImbalanceTracker`) -/

/-- One entry of the raw trade ring: `(timestamp_ms, side == "buy", price,
amount)`. -/
structure TradeRec where
  timestamp : ℚ
  is_buy : Bool
  price : ℚ
  amount : ℚ
deriving DecidableEq

/-- `ImbalanceConfig` (pydantic model defaults; `zscore_threshold` uses the
env default `"2.0"`). -/
structure ImbalanceConfig where
  max_buffer_size : ℕ
  nofi_window_sec : ℚ
  volume_window_min : ℚ
  zscore_threshold : ℚ
  absorption_nofi_min : ℚ
  absorption_eff_max : ℚ

def defaultImbalanceConfig : ImbalanceConfig :=
  { max_buffer_size := 50000
    nofi_window_sec := 60
    volume_window_min := 20
    zscore_threshold := 2
    absorption_nofi_min := 2/5
    absorption_eff_max := 1/10000 }

/-- Append one record to a `deque(maxlen=cap)`: evict oldest-first past the
cap. -/
def pushOne (cap : ℕ) (ring : List TradeRec) (t : TradeRec) : List TradeRec :=
  let r := ring ++ [t]
  if cap < r.length then r.drop (r.length - cap) else r

/-- `ImbalanceTracker.push`: append a batch of trades to the ring. -/
def push (cap : ℕ) (ring : List TradeRec) (batch : List TradeRec) : List TradeRec :=
  batch.foldl (pushOne cap) ring

/-- `ImbalanceTracker._window`: walk the ring newest→oldest until a timestamp
falls below `cutoff`, return the collected entries in chronological order. -/
def windowRows (ring : List TradeRec) (cutoff : ℚ) : List TradeRec :=
  (ring.reverse.takeWhile (fun t => ¬ t.timestamp < cutoff)).reverse

/-- Sum of the amounts of the buy-side records. -/
def buyVolume (w : List TradeRec) : ℚ :=
  ((w.filter (fun t => t.is_buy)).map TradeRec.amount).sum

/-- Sum of the amounts of the sell-side records. -/
def sellVolume (w : List TradeRec) : ℚ :=
  ((w.filter (fun t => ¬ t.is_buy)).map TradeRec.amount).sum

/-- `ImbalanceTracker.compute_nofi`: returns `(nOFI, buy_volume,
sell_volume)`. -/
def compute_nofi (w : List TradeRec) : ℚ × ℚ × ℚ :=
  if w.length = 0 then (0, 0, 0)
  else
    let v_buy := buyVolume w
    let v_sell := sellVolume w
    let total := v_buy + v_sell
    if total = 0 then (0, v_buy, v_sell)
    else ((v_buy - v_sell) / total, v_buy, v_sell)

/-- `ImbalanceTracker.compute_efficiency`. -/
def compute_efficiency (w : List TradeRec) : ℚ :=
  if w.length < 2 then 0
  else
    let price_start := (w.headD ⟨0, false, 0, 0⟩).price
    let price_end := (w.getLastD ⟨0, false, 0, 0⟩).price
    let total_vol := (w.map TradeRec.amount).sum
    if total_vol = 0 then 0 else (price_end - price_start) / total_vol

/-- The 60-second bucket ids `⌊(ts − ts₀)/60000⌋` of a window (`bucket_ids`
in `compute_volume_zscore`). -/
def bucketIds (w : List TradeRec) : List ℤ :=
  match w with
  | [] => []
  | t0 :: _ => w.map (fun t => ⌊(t.timestamp - t0.timestamp) / 60000⌋)

/-- Body of `ImbalanceTracker.compute_volume_zscore` applied to an already
extracted window. `none` models a raised numpy exception (`np.zeros` of a
negative size, or `np.add.at` out of range). -/
noncomputable def volume_zscore_of_window (w : List TradeRec) : Option ℝ :=
  if w.length = 0 then some 0
  else
    let ids := bucketIds w
    let max_bucket : ℤ := ids.getLastD 0 + 1
    if max_bucket < 0 then none
    else
      match addAt (zerosQ max_bucket.toNat) ids (w.map TradeRec.amount) with
      | none => none
      | some bucket_vols =>
        if bucket_vols.length < 2 then some 0
        else
          let current_vol := bucket_vols.getLastD 0
          let hist_vols := bucket_vols.dropLast
          let mean := qmean hist_vols
          let std := npStd1 hist_vols
          if std = 0 then some 0
          else some ((((current_vol - mean : ℚ) : ℝ)) / std)

/-- `MarketMetrics`. The two boolean flags are propositions on the real
Z-score (they compare against a threshold); everything else is exact. -/
structure MarketMetrics where
  nofi : ℚ
  buy_volume : ℚ
  sell_volume : ℚ
  efficiency : ℚ
  volume_zscore : ℝ
  is_significant : Prop
  is_absorption : Prop
  trend : String
  status : String

/-- The record constructed at the end of `compute_metrics`. -/
noncomputable def build_metrics (cfg : ImbalanceConfig) (nofi v_buy v_sell efficiency : ℚ)
    (zscore : ℝ) : MarketMetrics :=
  { nofi := pyround 4 nofi
    buy_volume := pyround 6 v_buy
    sell_volume := pyround 6 v_sell
    efficiency := pyround 6 efficiency
    volume_zscore := pyroundR 2 zscore
    is_significant := zscore > (cfg.zscore_threshold : ℝ)
    is_absorption := cfg.absorption_nofi_min ≤ |nofi| ∧ |efficiency| ≤ cfg.absorption_eff_max
    trend := if nofi > 3/10 then "BULLISH" else if nofi < -(3/10) then "BEARISH" else "NEUTRAL"
    status := if zscore > (cfg.zscore_threshold : ℝ) then "SIGNAL_DETECTED" else "MONITORING" }

/-- `ImbalanceTracker.compute_metrics`, with the wall clock passed in as
`now_ms`. `none` is a propagated numpy exception from the Z-score pass. -/
noncomputable def compute_metrics (cfg : ImbalanceConfig) (ring : List TradeRec)
    (now_ms : ℚ) : Option MarketMetrics :=
  let w := windowRows ring (now_ms - cfg.nofi_window_sec * 1000)
  let n := compute_nofi w
  let efficiency := compute_efficiency w
  let wz := windowRows ring (now_ms - cfg.volume_window_min * 60 * 1000)
  (volume_zscore_of_window wz).map (fun z => build_metrics cfg n.1 n.2.1 n.2.2 efficiency z)

/-! ## Level Engine (`LevelTracker`) -/

/-- A candle row `[open, high, low, close, volume, timestamp_ms_open]`. -/
structure Candle where
  o : ℚ
  h : ℚ
  l : ℚ
  c : ℚ
  v : ℚ
  t : ℚ
deriving DecidableEq

/-- `LevelConfig` defaults. -/
structure LevelConfig where
  candle_interval_sec : ℚ
  candle_window : ℕ
  h1_lookback : ℕ
  atr_period : ℕ
  buffer_zone_pct : ℚ
  nofi_threshold : ℚ
  sweep_timeout_sec : ℚ
  confirm_timeout_sec : ℚ
  cooldown_sec : ℚ

def defaultLevelConfig : LevelConfig :=
  { candle_interval_sec := 60
    candle_window := 240
    h1_lookback := 60
    atr_period := 14
    buffer_zone_pct := 5/10000
    nofi_threshold := 7/10
    sweep_timeout_sec := 60
    confirm_timeout_sec := 30
    cooldown_sec := 1800 }

/-- The hunt-state string constants `_SCANNING`, `_SWEEPING`, `_CONFIRMING`,
`_COOLDOWN` (module-level strings used only in equality comparisons). -/
inductive HuntPhase where
  | SCANNING
  | SWEEPING
  | CONFIRMING
  | COOLDOWN
deriving DecidableEq

/-- `_HuntState`: one per-level sweep state machine. -/
structure HuntState where
  name : String
  is_high : Bool
  state : HuntPhase
  level_price : ℚ
  opposite_price : ℚ
  wick_extreme : ℚ
  sweep_start : ℚ
  cooldown_until : ℚ
deriving DecidableEq

/-- `SweepResult`. -/
structure SweepResult where
  side : String
  strength : String
  level_name : String
  level_price : ℚ
  wick_extreme : ℚ
  fib_tp : ℚ
  range_high : ℚ
  range_low : ℚ
deriving DecidableEq

/-- `LevelTracker` state. The four hunts are the dict
`{"H1_High", "H1_Low", "H4_High", "H4_Low"}` in its (insertion) iteration
order. -/
structure LevelTracker where
  config : LevelConfig
  candles : List Candle
  current_candle : Option Candle
  candle_open_ts : ℚ
  current_price : ℚ
  atr : ℚ
  h1_high : ℚ
  h1_low : ℚ
  h4_high : ℚ
  h4_low : ℚ
  hunt_h1_high : HuntState
  hunt_h1_low : HuntState
  hunt_h4_high : HuntState
  hunt_h4_low : HuntState

/-- A fresh `LevelTracker()` with the default config. -/
def freshLevelTracker : LevelTracker :=
  { config := defaultLevelConfig
    candles := []
    current_candle := none
    candle_open_ts := 0
    current_price := 0
    atr := 0
    h1_high := 0, h1_low := 0, h4_high := 0, h4_low := 0
    hunt_h1_high := ⟨"H1_High", true, .SCANNING, 0, 0, 0, 0, 0⟩
    hunt_h1_low := ⟨"H1_Low", false, .SCANNING, 0, 0, 0, 0, 0⟩
    hunt_h4_high := ⟨"H4_High", true, .SCANNING, 0, 0, 0, 0, 0⟩
    hunt_h4_low := ⟨"H4_Low", false, .SCANNING, 0, 0, 0, 0, 0⟩ }

/-- Last `k` elements of a list (`arr[-k:]` for `0 < k ≤ len`). -/
def lastN (k : ℕ) (l : List Candle) : List Candle := l.drop (l.length - k)

/-- The per-candle true ranges: `TR_i = max(H_i−L_i, |H_i−C_{i−1}|,
|L_i−C_{i−1}|)` with the previous close threaded through (seeded by the
caller with the first candle's open). -/
def trList : ℚ → List Candle → List ℚ
  | _, [] => []
  | prev_c, cd :: rest =>
    max (cd.h - cd.l) (max |cd.h - prev_c| |cd.l - prev_c|) :: trList cd.c rest

/-- Refresh one hunt's pinned level from the freshly recomputed extremes —
only while it is SCANNING. -/
def refreshHunt (h : HuntState) (lvl opp : ℚ) : HuntState :=
  match h.state with
  | .SCANNING => { h with level_price := lvl, opposite_price := opp }
  | _ => h

/-- `LevelTracker._recompute_levels`: H4 extremes over the whole ring, H1
extremes over the last `h1_lookback` candles, SCANNING-only hunt refresh,
and the ATR. Returns the tracker unchanged when fewer than two candles are
finalised. -/
def recompute_levels (lt : LevelTracker) : LevelTracker :=
  let n := lt.candles.length
  if n < 2 then lt
  else
    let h4h := qmax (lt.candles.map Candle.h)
    let h4l := qmin (lt.candles.map Candle.l)
    let h1_slice := lastN (min lt.config.h1_lookback n) lt.candles
    let h1h := qmax (h1_slice.map Candle.h)
    let h1l := qmin (h1_slice.map Candle.l)
    let lt := { lt with
      h4_high := h4h, h4_low := h4l, h1_high := h1h, h1_low := h1l
      hunt_h1_high := refreshHunt lt.hunt_h1_high h1h h1l
      hunt_h1_low := refreshHunt lt.hunt_h1_low h1l h1h
      hunt_h4_high := refreshHunt lt.hunt_h4_high h4h h4l
      hunt_h4_low := refreshHunt lt.hunt_h4_low h4l h4h }
    let atr_n := min lt.config.atr_period n
    let recent := lastN atr_n lt.candles
    if 2 ≤ atr_n then
      let prev0 := (recent.headD ⟨0, 0, 0, 0, 0, 0⟩).o
      let tr := trList prev0 recent
      { lt with atr := qmean tr }
    else lt

/-- Append a finalised candle to the bounded candle ring
(`deque(maxlen=candle_window)`). -/
def appendCapped (cap : ℕ) (l : List Candle) (x : Candle) : List Candle :=
  let r := l ++ [x]
  if cap < r.length then r.drop (r.length - cap) else r

/-- `LevelTracker.push_trade`: incremental candle synthesis; finalising a
candle triggers `_recompute_levels`. -/
def push_trade (lt : LevelTracker) (ts price amount : ℚ) : LevelTracker :=
  let lt := { lt with current_price := price }
  let interval_ms := lt.config.candle_interval_sec * 1000
  let bucket := (⌊ts / interval_ms⌋ : ℚ) * interval_ms
  match lt.current_candle with
  | none =>
    { lt with
      current_candle := some ⟨price, price, price, price, amount, bucket⟩
      candle_open_ts := bucket }
  | some c =>
    if bucket ≠ lt.candle_open_ts then
      let lt := recompute_levels { lt with candles := appendCapped lt.config.candle_window lt.candles c }
      { lt with
        current_candle := some ⟨price, price, price, price, amount, bucket⟩
        candle_open_ts := bucket }
    else
      let c' : Candle :=
        { c with h := max c.h price, l := min c.l price, c := price, v := c.v + amount }
      { lt with current_candle := some c' }

/-- A sequence of `push_trade` calls, each trade given as
`(timestamp_ms, price, amount)`. -/
def push_trades (lt : LevelTracker) (trades : List (ℚ × ℚ × ℚ)) : LevelTracker :=
  trades.foldl (fun acc t => push_trade acc t.1 t.2.1 t.2.2) lt

/-- `LevelTracker._build_result`: the emitted `SweepResult`, fields rounded
to 2 decimals. -/
def build_result (h : HuntState) (side : String) : SweepResult :=
  let range_high := max h.level_price h.opposite_price
  let range_low := min h.level_price h.opposite_price
  let fib_50 := range_low + 1/2 * (range_high - range_low)
  { side := side
    strength := "HIGH"
    level_name := h.name
    level_price := pyround 2 h.level_price
    wick_extreme := pyround 2 h.wick_extreme
    fib_tp := pyround 2 fib_50
    range_high := pyround 2 range_high
    range_low := pyround 2 range_low }

/-- `LevelTracker._tick_hunt`: advance one level's state machine. Returns
the emitted result (if any) and the updated hunt state. -/
def tick_hunt (cfg : LevelConfig) (h : HuntState) (price buf nofi now : ℚ) :
    Option SweepResult × HuntState :=
  match h.state with
  | .COOLDOWN =>
    if h.cooldown_until ≤ now then (none, { h with state := HuntPhase.SCANNING }) else (none, h)
  | .CONFIRMING =>
    let elapsed := now - h.sweep_start
    if cfg.sweep_timeout_sec + cfg.confirm_timeout_sec < elapsed then
      (none, { h with state := HuntPhase.SCANNING })
    else if h.is_high ∧ h.level_price + buf < price then
      (none, { h with state := HuntPhase.SWEEPING, wick_extreme := max h.wick_extreme price })
    else if ¬ h.is_high ∧ price < h.level_price - buf then
      (none, { h with state := HuntPhase.SWEEPING, wick_extreme := min h.wick_extreme price })
    else if h.is_high ∧ nofi ≤ -cfg.nofi_threshold then
      let h' := { h with state := HuntPhase.COOLDOWN, cooldown_until := now + cfg.cooldown_sec }
      (some (build_result h' "sell"), h')
    else if ¬ h.is_high ∧ cfg.nofi_threshold ≤ nofi then
      let h' := { h with state := HuntPhase.COOLDOWN, cooldown_until := now + cfg.cooldown_sec }
      (some (build_result h' "buy"), h')
    else (none, h)
  | .SWEEPING =>
    if cfg.sweep_timeout_sec < now - h.sweep_start then
      (none, { h with state := HuntPhase.SCANNING })
    else
      let h := if h.is_high then { h with wick_extreme := max h.wick_extreme price }
               else { h with wick_extreme := min h.wick_extreme price }
      if h.is_high ∧ price < h.level_price then (none, { h with state := HuntPhase.CONFIRMING })
      else if ¬ h.is_high ∧ h.level_price < price then (none, { h with state := HuntPhase.CONFIRMING })
      else (none, h)
  | .SCANNING =>
    if h.is_high ∧ h.level_price + buf < price then
      (none, { h with state := HuntPhase.SWEEPING, sweep_start := now, wick_extreme := price })
    else if ¬ h.is_high ∧ price < h.level_price - buf then
      (none, { h with state := HuntPhase.SWEEPING, sweep_start := now, wick_extreme := price })
    else (none, h)

/-- One iteration of the `check_hunt` loop body: skip hunts whose level is
still unset (`continue`), otherwise run `_tick_hunt`. -/
def hunt_step (cfg : LevelConfig) (h : HuntState) (price buf nofi now : ℚ) :
    Option SweepResult × HuntState :=
  if h.level_price = 0 then (none, h) else tick_hunt cfg h price buf nofi now

/-- `LevelTracker.check_hunt`: iterate the four hunts in insertion order
(H1_High, H1_Low, H4_High, H4_Low) and return the first confirmed result.
The wall clock is the explicit `now` argument. -/
def check_hunt (lt : LevelTracker) (nofi now : ℚ) : Option SweepResult × LevelTracker :=
  if lt.current_price = 0 then (none, lt)
  else
    let price := lt.current_price
    let buf := price * lt.config.buffer_zone_pct
    match hunt_step lt.config lt.hunt_h1_high price buf nofi now with
    | (some r, h) => (some r, { lt with hunt_h1_high := h })
    | (none, h1) =>
      match hunt_step lt.config lt.hunt_h1_low price buf nofi now with
      | (some r, h) => (some r, { lt with hunt_h1_high := h1, hunt_h1_low := h })
      | (none, h2) =>
        match hunt_step lt.config lt.hunt_h4_high price buf nofi now with
        | (some r, h) =>
          (some r, { lt with hunt_h1_high := h1, hunt_h1_low := h2, hunt_h4_high := h })
        | (none, h3) =>
          match hunt_step lt.config lt.hunt_h4_low price buf nofi now with
          | (some r, h) =>
            (some r, { lt with hunt_h1_high := h1, hunt_h1_low := h2, hunt_h4_high := h3,
                               hunt_h4_low := h })
          | (none, h4) =>
            (none, { lt with hunt_h1_high := h1, hunt_h1_low := h2, hunt_h4_high := h3,
                             hunt_h4_low := h4 })

/-! ## Risk Gatekeeper (`RiskManager`) -/

/-- `RiskConfig` (defaults; `account_balance` uses the env default
`"10000.0"`). -/
structure RiskConfig where
  account_balance : ℚ
  max_account_risk_pct : ℚ
  max_daily_loss_pct : ℚ
  max_consecutive_losses : ℕ
  max_volatility_zscore : ℚ
  max_spread_pct : ℚ
  reward_risk_ratio : ℚ
  min_order_qty : ℚ
deriving DecidableEq

def defaultRiskConfig : RiskConfig :=
  { account_balance := 10000
    max_account_risk_pct := 1/100
    max_daily_loss_pct := 3/100
    max_consecutive_losses := 3
    max_volatility_zscore := 4
    max_spread_pct := 1/1000
    reward_risk_ratio := 2
    min_order_qty := 1/1000 }

/-- `ValidatedOrder`. -/
structure ValidatedOrder where
  side : String
  entry_price : ℚ
  stop_loss : ℚ
  take_profit : ℚ
  position_size : ℚ
  reason : String
  timestamp_ms : ℚ
deriving DecidableEq

/-- The fields of a `TradeSignal` that `RiskManager` reads. -/
structure TradeSignal where
  side : String
  stop_loss : ℚ
  reason : String
  timestamp_ms : ℚ
deriving DecidableEq

/-- `RiskManager` mutable state. UTC dates are abstract day tokens (only
equality of date strings is used by the source). -/
structure RiskState where
  config : RiskConfig
  volatility_halted : Bool
  current_day : ℕ
  daily_pnl : ℚ
  consecutive_losses : ℕ
  daily_halted : Bool
deriving DecidableEq

/-- A freshly constructed `RiskManager(config)` on day `day`. -/
def freshRisk (cfg : RiskConfig) (day : ℕ) : RiskState :=
  { config := cfg
    volatility_halted := false
    current_day := day
    daily_pnl := 0
    consecutive_losses := 0
    daily_halted := false }

/-- `RiskManager._check_day_rollover` (today's UTC date passed in). -/
def check_day_rollover (s : RiskState) (today : ℕ) : RiskState :=
  if today ≠ s.current_day then
    { s with current_day := today, daily_pnl := 0, consecutive_losses := 0,
             daily_halted := false }
  else s

/-- `RiskManager.calculate_position_size`. Returns 0 to signal rejection. -/
def calculate_position_size (cfg : RiskConfig) (entry_price stop_loss_price : ℚ) : ℚ :=
  let risk_distance := |entry_price - stop_loss_price|
  if risk_distance = 0 then 0
  else
    let risk_amount := cfg.account_balance * cfg.max_account_risk_pct
    let size := risk_amount / risk_distance
    if size < cfg.min_order_qty then 0
    else
      let max_size := cfg.account_balance / entry_price
      pyround 8 (min size max_size)

/-- Steps 5–6 of `RiskManager.process_signal` (entry/stop-loss validation,
take-profit derivation and sizing): the order construction that runs once
every circuit breaker and the spread guard have passed. -/
def process_signal_order (cfg : RiskConfig) (sig : TradeSignal) (bid ask : ℚ) :
    Option ValidatedOrder :=
  let entry_price := if sig.side = "buy" then ask else bid
  let stop_loss := if 0 < sig.stop_loss then sig.stop_loss else 0
  if stop_loss = 0 then none
  else if sig.side = "buy" ∧ entry_price ≤ stop_loss then none
  else if sig.side = "sell" ∧ stop_loss ≤ entry_price then none
  else
    let risk_distance := |entry_price - stop_loss|
    let take_profit :=
      if sig.side = "buy" then entry_price + risk_distance * cfg.reward_risk_ratio
      else entry_price - risk_distance * cfg.reward_risk_ratio
    let size := calculate_position_size cfg entry_price stop_loss
    if size = 0 then none
    else
      some { side := sig.side
             entry_price := pyround 8 entry_price
             stop_loss := pyround 8 stop_loss
             take_profit := pyround 8 take_profit
             position_size := size
             reason := sig.reason
             timestamp_ms := sig.timestamp_ms }

/-- `RiskManager.process_signal`: validate a `TradeSignal` against circuit
breakers, the spread guard and sizing; returns the order (or `none`) and the
post-call state. -/
def process_signal (s : RiskState) (sig : TradeSignal) (bid ask : ℚ) (today : ℕ) :
    Option ValidatedOrder × RiskState :=
  let s := check_day_rollover s today
  if s.daily_halted then (none, s)
  else
    let daily_loss_limit := s.config.account_balance * s.config.max_daily_loss_pct
    if s.daily_pnl ≤ -daily_loss_limit then (none, { s with daily_halted := true })
    else if s.config.max_consecutive_losses ≤ s.consecutive_losses then (none, s)
    else if s.volatility_halted then (none, s)
    else if bid ≤ 0 ∨ ask ≤ 0 then (none, s)
    else
      let mid_price := (bid + ask) / 2
      let spread_pct := (ask - bid) / mid_price
      if s.config.max_spread_pct < spread_pct then (none, s)
      else (process_signal_order s.config sig bid ask, s)

/-- The raw entry price `process_signal` uses: ask for a buy, bid
otherwise. -/
def entry_of (sig : TradeSignal) (bid ask : ℚ) : ℚ := if sig.side = "buy" then ask else bid

/-- The raw take-profit `process_signal` derives:
`entry ± risk_distance · reward_risk_ratio`. -/
def tp_of (cfg : RiskConfig) (sig : TradeSignal) (bid ask : ℚ) : ℚ :=
  if sig.side = "buy" then
    entry_of sig bid ask + |entry_of sig bid ask - sig.stop_loss| * cfg.reward_risk_ratio
  else entry_of sig bid ask - |entry_of sig bid ask - sig.stop_loss| * cfg.reward_risk_ratio

/-- `RiskManager.record_fill`: daily PnL tracking, the consecutive-loss
counter, and the latched daily-loss breaker. -/
def record_fill (s : RiskState) (pnl : ℚ) (today : ℕ) : RiskState :=
  let s := check_day_rollover s today
  let s := { s with daily_pnl := s.daily_pnl + pnl }
  let s :=
    if pnl < 0 then { s with consecutive_losses := s.consecutive_losses + 1 }
    else { s with consecutive_losses := 0 }
  let daily_loss_limit := s.config.account_balance * s.config.max_daily_loss_pct
  if s.daily_pnl ≤ -daily_loss_limit ∧ ¬ s.daily_halted then { s with daily_halted := true }
  else s

/-! ## Spec-modelled definitions -/

/-- The volume Z-score exactly as the specification words it: bucket the
window's trades into 60-second bins keyed by `⌊(ts − first_ts)/60000⌋`,
take the most recent bin as `current` and every earlier bin as history,
and return `(current − mean(history)) / stdev(history, ddof=1)`, or 0 when
fewer than two bins exist or the standard deviation is 0 (in particular
when the history is a single bin). -/
noncomputable def spec_volume_zscore (w : List TradeRec) : ℝ :=
  match w with
  | [] => 0
  | t0 :: _ =>
    let key : TradeRec → ℤ := fun t => ⌊(t.timestamp - t0.timestamp) / 60000⌋
    let last_key : ℤ := key (w.getLastD t0)
    let bins : List ℚ :=
      (List.range (last_key + 1).toNat).map
        (fun (k : ℕ) => ((w.filter (fun t => key t = (k : ℤ))).map TradeRec.amount).sum)
    if bins.length < 2 then 0
    else
      let current := bins.getLastD 0
      let history := bins.dropLast
      if npStd1 history = 0 then 0
      else (((current - qmean history : ℚ) : ℝ)) / npStd1 history

/-! ## Concrete scenario states used by individual claims -/

/-- Scenario S3 start state: a tracker whose H4_High hunt is SCANNING with
`level_price = 100`, `opposite_price = 90`, all other levels unset. -/
def c2_tracker : LevelTracker :=
  { freshLevelTracker with
    hunt_h4_high := ⟨"H4_High", true, .SCANNING, 100, 90, 0, 0, 0⟩ }

/-- A tracker whose H4_High hunt is CONFIRMING on the level range
`[1.001, 1.006]` (prices whose 2-decimal roundings interact badly with the
midpoint), current price 1. -/
def c3_tracker : LevelTracker :=
  { freshLevelTracker with
    current_price := 1
    hunt_h4_high := ⟨"H4_High", true, .CONFIRMING, 1006/1000, 1001/1000, 101/100, 1000, 0⟩ }

/-- The sweep result the hunter emits from `c3_tracker`. -/
def c3_result : SweepResult :=
  ⟨"sell", "HIGH", "H4_High", 101/100, 101/100, 1, 101/100, 1⟩

/-- A tracker whose H4_High hunt is mid-flight (SWEEPING) with pinned level
100 / opposite 90. -/
def c4_tracker : LevelTracker :=
  { freshLevelTracker with
    hunt_h4_high := ⟨"H4_High", true, .SWEEPING, 100, 90, 101, 1000, 0⟩ }

/-- Three trades spanning three candle buckets, so the third push finalises
a second candle and actually runs `_recompute_levels`. -/
def c4_trades : List (ℚ × ℚ × ℚ) := [(0, 100, 1), (60000, 105, 1), (120000, 95, 1)]

/-- A window holding one zero-amount trade: both sides have zero volume. -/
def c5_window : List TradeRec := [⟨0, true, 100, 0⟩]

/-- The S1 trade window: `(0,buy,100,1), (10000,sell,100,1), (20000,buy,100,2)`. -/
def s1_window : List TradeRec :=
  [⟨0, true, 100, 1⟩, ⟨10000, false, 100, 1⟩, ⟨20000, true, 100, 2⟩]

/-- An imbalance config with a tiny ring capacity (ring eviction defeats the
push-twice/push-doubled equivalence). -/
def c8_config : ImbalanceConfig := { defaultImbalanceConfig with max_buffer_size := 3 }

/-- A two-trade batch (one sell, one buy) at timestamp 0. -/
def c8_batch : List TradeRec := [⟨0, false, 100, 1⟩, ⟨0, true, 100, 1⟩]

/-- `c8_batch` with every amount doubled. -/
def c8_batch_doubled : List TradeRec := [⟨0, false, 100, 2⟩, ⟨0, true, 100, 2⟩]

/-- Scenario-S2 style trades: two buckets, so only one candle is ever
finalised. -/
def c10_trades : List (ℚ × ℚ × ℚ) := [(0, 100, 1), (30000, 105, 2), (60000, 103, 1)]

/-- Chronological order of a trade list: timestamps are non-decreasing
(the spec's best-effort ring invariant). -/
def Chrono (l : List TradeRec) : Prop :=
  l.Pairwise (fun a b => a.timestamp ≤ b.timestamp)

/-- The claim's "same batch with every amount doubled". -/
def doubleAmounts (batch : List TradeRec) : List TradeRec :=
  batch.map (fun t => { t with amount := 2 * t.amount })

/-- A ring whose two entries are out of chronological order (tolerated by
`push`: "out-of-order within a batch is tolerated but not corrected"). -/
def c9_ring : List TradeRec := [⟨1000, true, 100, 1⟩, ⟨500, true, 100, 1⟩]

/-! ## Helper lemmas -/

theorem pyround_mono {n : ℕ} {x y : ℚ} (h : x ≤ y) : pyround n x ≤ pyround n y := by
  unfold pyround
  have hp : (0 : ℚ) < 10 ^ n := by positivity
  have hx : x * 10 ^ n ≤ y * 10 ^ n := mul_le_mul_of_nonneg_right h hp.le
  have hr : round (x * 10 ^ n) ≤ round (y * 10 ^ n) := by
    rw [round_eq, round_eq]
    exact Int.floor_le_floor (by linarith)
  exact (div_le_div_right hp).2 (by exact_mod_cast hr)

theorem refreshHunt_state (h : HuntState) (lvl opp : ℚ) :
    (refreshHunt h lvl opp).state = h.state := by
  obtain ⟨n, ih, st, lp, op, w, ss, cu⟩ := h
  cases st <;> rfl

theorem refreshHunt_of_ne (h : HuntState) (lvl opp : ℚ) (hs : h.state ≠ .SCANNING) :
    refreshHunt h lvl opp = h := by
  obtain ⟨n, ih, st, lp, op, w, ss, cu⟩ := h
  cases st
  · exact absurd rfl hs
  all_goals rfl

/-- `_recompute_levels` never changes a hunt's phase, and leaves a
non-SCANNING hunt entirely untouched. -/
theorem recompute_levels_hunts (lt : LevelTracker) :
    ((recompute_levels lt).hunt_h1_high.state = lt.hunt_h1_high.state ∧
      (lt.hunt_h1_high.state ≠ .SCANNING →
        (recompute_levels lt).hunt_h1_high = lt.hunt_h1_high)) ∧
    ((recompute_levels lt).hunt_h1_low.state = lt.hunt_h1_low.state ∧
      (lt.hunt_h1_low.state ≠ .SCANNING →
        (recompute_levels lt).hunt_h1_low = lt.hunt_h1_low)) ∧
    ((recompute_levels lt).hunt_h4_high.state = lt.hunt_h4_high.state ∧
      (lt.hunt_h4_high.state ≠ .SCANNING →
        (recompute_levels lt).hunt_h4_high = lt.hunt_h4_high)) ∧
    ((recompute_levels lt).hunt_h4_low.state = lt.hunt_h4_low.state ∧
      (lt.hunt_h4_low.state ≠ .SCANNING →
        (recompute_levels lt).hunt_h4_low = lt.hunt_h4_low)) := by
  unfold recompute_levels
  dsimp only
  split_ifs <;> simp_all [refreshHunt_state, refreshHunt_of_ne]

/-- `push_trade` never changes a hunt's phase, and leaves a non-SCANNING
hunt entirely untouched. -/
theorem push_trade_hunts (lt : LevelTracker) (ts price amount : ℚ) :
    ((push_trade lt ts price amount).hunt_h1_high.state = lt.hunt_h1_high.state ∧
      (lt.hunt_h1_high.state ≠ .SCANNING →
        (push_trade lt ts price amount).hunt_h1_high = lt.hunt_h1_high)) ∧
    ((push_trade lt ts price amount).hunt_h1_low.state = lt.hunt_h1_low.state ∧
      (lt.hunt_h1_low.state ≠ .SCANNING →
        (push_trade lt ts price amount).hunt_h1_low = lt.hunt_h1_low)) ∧
    ((push_trade lt ts price amount).hunt_h4_high.state = lt.hunt_h4_high.state ∧
      (lt.hunt_h4_high.state ≠ .SCANNING →
        (push_trade lt ts price amount).hunt_h4_high = lt.hunt_h4_high)) ∧
    ((push_trade lt ts price amount).hunt_h4_low.state = lt.hunt_h4_low.state ∧
      (lt.hunt_h4_low.state ≠ .SCANNING →
        (push_trade lt ts price amount).hunt_h4_low = lt.hunt_h4_low)) := by
  unfold push_trade
  dsimp only
  split
  · simp
  · split_ifs
    · exact recompute_levels_hunts _
    · simp

/-- `push_trades` (any sequence) never changes a hunt's phase, and leaves a
non-SCANNING hunt entirely untouched. -/
theorem push_trades_hunts (trades : List (ℚ × ℚ × ℚ)) : ∀ lt : LevelTracker,
    ((push_trades lt trades).hunt_h1_high.state = lt.hunt_h1_high.state ∧
      (lt.hunt_h1_high.state ≠ .SCANNING →
        (push_trades lt trades).hunt_h1_high = lt.hunt_h1_high)) ∧
    ((push_trades lt trades).hunt_h1_low.state = lt.hunt_h1_low.state ∧
      (lt.hunt_h1_low.state ≠ .SCANNING →
        (push_trades lt trades).hunt_h1_low = lt.hunt_h1_low)) ∧
    ((push_trades lt trades).hunt_h4_high.state = lt.hunt_h4_high.state ∧
      (lt.hunt_h4_high.state ≠ .SCANNING →
        (push_trades lt trades).hunt_h4_high = lt.hunt_h4_high)) ∧
    ((push_trades lt trades).hunt_h4_low.state = lt.hunt_h4_low.state ∧
      (lt.hunt_h4_low.state ≠ .SCANNING →
        (push_trades lt trades).hunt_h4_low = lt.hunt_h4_low)) := by
  induction trades with
  | nil => intro lt; simp [push_trades]
  | cons t ts ih =>
    intro lt
    have hstep := push_trade_hunts lt t.1 t.2.1 t.2.2
    have hrest := ih (push_trade lt t.1 t.2.1 t.2.2)
    have hfold : push_trades lt (t :: ts) = push_trades (push_trade lt t.1 t.2.1 t.2.2) ts := rfl
    rw [hfold]
    refine ⟨⟨hrest.1.1.trans hstep.1.1, ?_⟩,
            ⟨hrest.2.1.1.trans hstep.2.1.1, ?_⟩,
            ⟨hrest.2.2.1.1.trans hstep.2.2.1.1, ?_⟩,
            ⟨hrest.2.2.2.1.trans hstep.2.2.2.1, ?_⟩⟩
    · intro hne
      exact (hrest.1.2 (by rw [hstep.1.1]; exact hne)).trans (hstep.1.2 hne)
    · intro hne
      exact (hrest.2.1.2 (by rw [hstep.2.1.1]; exact hne)).trans (hstep.2.1.2 hne)
    · intro hne
      exact (hrest.2.2.1.2 (by rw [hstep.2.2.1.1]; exact hne)).trans (hstep.2.2.1.2 hne)
    · intro hne
      exact (hrest.2.2.2.2 (by rw [hstep.2.2.2.1]; exact hne)).trans (hstep.2.2.2.2 hne)

theorem check_hunt_unset (lt : LevelTracker) (nofi now : ℚ)
    (h1 : lt.hunt_h1_high.level_price = 0) (h2 : lt.hunt_h1_low.level_price = 0)
    (h3 : lt.hunt_h4_high.level_price = 0) (h4 : lt.hunt_h4_low.level_price = 0) :
    check_hunt lt nofi now = (none, lt) := by
  unfold check_hunt hunt_step
  dsimp only
  split_ifs <;> simp_all

theorem recompute_levels_candles (lt : LevelTracker) :
    (recompute_levels lt).candles = lt.candles := by
  unfold recompute_levels
  dsimp only
  split_ifs <;> rfl

theorem recompute_levels_small (lt : LevelTracker) (h : lt.candles.length < 2) :
    recompute_levels lt = lt := by
  unfold recompute_levels
  dsimp only
  rw [if_pos h]

theorem push_trade_config (lt : LevelTracker) (ts p a : ℚ) :
    (push_trade lt ts p a).config = lt.config := by
  unfold push_trade
  dsimp only
  split
  · rfl
  · split_ifs
    · simp [recompute_levels_candles]
      unfold recompute_levels
      dsimp only
      split_ifs <;> rfl
    · rfl

theorem appendCapped_length (cap : ℕ) (l : List Candle) (x : Candle) :
    (appendCapped cap l x).length = if cap < l.length + 1 then cap else l.length + 1 := by
  unfold appendCapped
  dsimp only
  split_ifs with h h2 h2 <;> simp_all <;> omega

theorem push_trade_keeps (lt : LevelTracker) (ts p a : ℚ)
    (hcap : 2 ≤ lt.config.candle_window)
    (hlen : (push_trade lt ts p a).candles.length < 2) :
    lt.candles.length < 2 ∧
    (push_trade lt ts p a).hunt_h1_high = lt.hunt_h1_high ∧
    (push_trade lt ts p a).hunt_h1_low = lt.hunt_h1_low ∧
    (push_trade lt ts p a).hunt_h4_high = lt.hunt_h4_high ∧
    (push_trade lt ts p a).hunt_h4_low = lt.hunt_h4_low := by
  unfold push_trade at hlen ⊢
  dsimp only at hlen ⊢
  rcases hc : lt.current_candle with _ | c <;> simp only [hc] at hlen ⊢
  · exact ⟨by simpa using hlen, by trivial, by trivial, by trivial, by trivial⟩
  · split_ifs at hlen ⊢ with hb
    · rw [recompute_levels_candles, appendCapped_length] at hlen
      have hsmall : lt.candles.length < 2 := by
        by_cases hx : lt.config.candle_window < lt.candles.length + 1 <;>
          simp [hx] at hlen <;> omega
      have happ : (appendCapped lt.config.candle_window lt.candles c).length < 2 := by
        rw [appendCapped_length]
        by_cases hx : lt.config.candle_window < lt.candles.length + 1 <;>
          simp only [hx, if_true, if_false] at hlen ⊢ <;> omega
      rw [recompute_levels_small _ happ]
      exact ⟨hsmall, rfl, rfl, rfl, rfl⟩
    · exact ⟨by simpa using hlen, by trivial, by trivial, by trivial, by trivial⟩

theorem push_trades_config (trades : List (ℚ × ℚ × ℚ)) : ∀ lt : LevelTracker,
    (push_trades lt trades).config = lt.config := by
  induction trades with
  | nil => intro lt; rfl
  | cons t ts ih => intro lt; exact (ih _).trans (push_trade_config lt t.1 t.2.1 t.2.2)

theorem push_trades_keeps (trades : List (ℚ × ℚ × ℚ)) : ∀ lt : LevelTracker,
    2 ≤ lt.config.candle_window →
    (push_trades lt trades).candles.length < 2 →
    (push_trades lt trades).hunt_h1_high = lt.hunt_h1_high ∧
    (push_trades lt trades).hunt_h1_low = lt.hunt_h1_low ∧
    (push_trades lt trades).hunt_h4_high = lt.hunt_h4_high ∧
    (push_trades lt trades).hunt_h4_low = lt.hunt_h4_low := by
  induction trades using List.reverseRecOn with
  | nil => intro lt _ _; exact ⟨rfl, rfl, rfl, rfl⟩
  | append_singleton ts t ih =>
    intro lt hcap hlen
    have hfold : push_trades lt (ts ++ [t]) = push_trade (push_trades lt ts) t.1 t.2.1 t.2.2 := by
      simp [push_trades, List.foldl_append]
    rw [hfold] at hlen ⊢
    have hcap2 : 2 ≤ (push_trades lt ts).config.candle_window := by
      rw [push_trades_config]; exact hcap
    obtain ⟨hsm, e1, e2, e3, e4⟩ := push_trade_keeps _ t.1 t.2.1 t.2.2 hcap2 hlen
    obtain ⟨f1, f2, f3, f4⟩ := ih lt hcap hsm
    exact ⟨e1.trans f1, e2.trans f2, e3.trans f3, e4.trans f4⟩

theorem buyVolume_nonneg (w : List TradeRec) (hw : ∀ t ∈ w, 0 ≤ t.amount) :
    0 ≤ buyVolume w := by
  unfold buyVolume
  apply List.sum_nonneg
  intro x hx
  simp only [List.mem_map] at hx
  obtain ⟨t, ht, rfl⟩ := hx
  exact hw t (List.mem_of_mem_filter ht)

theorem sellVolume_nonneg (w : List TradeRec) (hw : ∀ t ∈ w, 0 ≤ t.amount) :
    0 ≤ sellVolume w := by
  unfold sellVolume
  apply List.sum_nonneg
  intro x hx
  simp only [List.mem_map] at hx
  obtain ⟨t, ht, rfl⟩ := hx
  exact hw t (List.mem_of_mem_filter ht)

theorem calculate_position_size_spec (cfg : RiskConfig) (entry sl : ℚ)
    (h : calculate_position_size cfg entry sl ≠ 0) :
    cfg.min_order_qty ≤ cfg.account_balance * cfg.max_account_risk_pct / |entry - sl| ∧
    calculate_position_size cfg entry sl =
      pyround 8 (min (cfg.account_balance * cfg.max_account_risk_pct / |entry - sl|)
        (cfg.account_balance / entry)) := by
  unfold calculate_position_size at h ⊢
  dsimp only at h ⊢
  split_ifs at h ⊢ with hd hq
  · exact absurd rfl h
  · exact absurd rfl h
  · exact ⟨not_lt.1 hq, rfl⟩

theorem check_day_rollover_config (s : RiskState) (today : ℕ) :
    (check_day_rollover s today).config = s.config := by
  unfold check_day_rollover
  split_ifs <;> rfl

/-- When `process_signal` returns an order, that order came from
`process_signal_order` on the same config and quotes. -/
theorem process_signal_fst (s : RiskState) (sig : TradeSignal) (bid ask : ℚ) (today : ℕ)
    (o : ValidatedOrder) (ho : (process_signal s sig bid ask today).1 = some o) :
    process_signal_order s.config sig bid ask = some o := by
  unfold process_signal at ho
  dsimp only at ho
  split_ifs at ho
  rw [check_day_rollover_config] at ho
  exact ho

/-- The invariants of any order built by `process_signal_order`. -/
theorem process_signal_order_spec (cfg : RiskConfig) (sig : TradeSignal) (bid ask : ℚ)
    (o : ValidatedOrder) (hr : 0 < cfg.reward_risk_ratio)
    (ho : process_signal_order cfg sig bid ask = some o) :
    o.entry_price = pyround 8 (entry_of sig bid ask) ∧
    o.stop_loss = pyround 8 sig.stop_loss ∧
    o.take_profit = pyround 8 (tp_of cfg sig bid ask) ∧
    (sig.side = "buy" →
      sig.stop_loss < entry_of sig bid ask ∧ entry_of sig bid ask < tp_of cfg sig bid ask ∧
      o.stop_loss ≤ o.entry_price ∧ o.entry_price ≤ o.take_profit) ∧
    (sig.side = "sell" →
      tp_of cfg sig bid ask < entry_of sig bid ask ∧ entry_of sig bid ask < sig.stop_loss ∧
      o.take_profit ≤ o.entry_price ∧ o.entry_price ≤ o.stop_loss) ∧
    |tp_of cfg sig bid ask - entry_of sig bid ask| =
      cfg.reward_risk_ratio * |entry_of sig bid ask - sig.stop_loss| ∧
    cfg.min_order_qty ≤
      cfg.account_balance * cfg.max_account_risk_pct / |entry_of sig bid ask - sig.stop_loss| ∧
    o.position_size =
      pyround 8 (min
        (cfg.account_balance * cfg.max_account_risk_pct / |entry_of sig bid ask - sig.stop_loss|)
        (cfg.account_balance / entry_of sig bid ask)) ∧
    o.position_size ≤ pyround 8 (cfg.account_balance / entry_of sig bid ask) := by
  unfold process_signal_order at ho
  dsimp only at ho
  split_ifs at ho
  all_goals try exact absurd rfl ‹¬(0:ℚ) = 0›
  · rename_i hsl hz hbuy hsell hsz hsize
    injection ho with ho2
    subst ho2
    have hentry : entry_of sig bid ask = ask := by simp [entry_of, hbuy]
    have htp : tp_of cfg sig bid ask =
        ask + |ask - sig.stop_loss| * cfg.reward_risk_ratio := by
      simp [tp_of, entry_of, hbuy]
    have hlt : sig.stop_loss < ask := by
      by_contra hc
      exact hsell ⟨hbuy, not_lt.1 hc⟩
    have hD : (0:ℚ) < |ask - sig.stop_loss| := abs_pos.2 (by linarith)
    have hDr : (0:ℚ) < |ask - sig.stop_loss| * cfg.reward_risk_ratio := mul_pos hD hr
    obtain ⟨hminq, hsz_eq⟩ := calculate_position_size_spec cfg ask sig.stop_loss hsize
    rw [hentry, htp]
    dsimp only
    refine ⟨rfl, rfl, rfl,
      fun _ => ⟨hlt, by linarith, pyround_mono hlt.le, pyround_mono (by linarith)⟩,
      fun hside => ?_, ?_, hminq, hsz_eq, ?_⟩
    · rw [hbuy] at hside
      exact absurd hside (by decide)
    · rw [show ask + |ask - sig.stop_loss| * cfg.reward_risk_ratio - ask =
          |ask - sig.stop_loss| * cfg.reward_risk_ratio from by ring,
        abs_mul, abs_abs, abs_of_pos hr, mul_comm]
    · rw [hsz_eq]
      exact pyround_mono (min_le_right _ _)
  · rename_i hsl hz hbuy hsell hsz hsize
    injection ho with ho2
    subst ho2
    have hentry : entry_of sig bid ask = bid := by simp [entry_of, hbuy]
    have htp : tp_of cfg sig bid ask =
        bid - |bid - sig.stop_loss| * cfg.reward_risk_ratio := by
      simp [tp_of, entry_of, hbuy]
    obtain ⟨hminq, hsz_eq⟩ := calculate_position_size_spec cfg bid sig.stop_loss hsize
    rw [hentry, htp]
    dsimp only
    refine ⟨rfl, rfl, rfl, fun hside => absurd hside hbuy, fun hside => ?_, ?_, hminq, hsz_eq, ?_⟩
    · have hlt : bid < sig.stop_loss := by
        by_contra hc
        exact hsz ⟨hside, not_lt.1 hc⟩
      have hD : (0:ℚ) < |bid - sig.stop_loss| := abs_pos.2 (by linarith)
      have hDr : (0:ℚ) < |bid - sig.stop_loss| * cfg.reward_risk_ratio := mul_pos hD hr
      exact ⟨by linarith, hlt, pyround_mono (by linarith), pyround_mono hlt.le⟩
    · rw [show bid - |bid - sig.stop_loss| * cfg.reward_risk_ratio - bid =
          -(|bid - sig.stop_loss| * cfg.reward_risk_ratio) from by ring,
        abs_neg, abs_mul, abs_abs, abs_of_pos hr, mul_comm]
    · rw [hsz_eq]
      exact pyround_mono (min_le_right _ _)

theorem addAt_length (ids : List ℤ) (amts : List ℚ) (v w : List ℚ)
    (h : addAt v ids amts = some w) : w.length = v.length := by
  induction ids generalizing amts v with
  | nil =>
    simp [addAt] at h
    subst h; rfl
  | cons i is ih =>
    cases amts with
    | nil =>
      simp [addAt] at h
      subst h; rfl
    | cons a as =>
      unfold addAt at h
      rcases hn : npIndex v.length i with _ | j
      · rw [hn] at h; exact Option.noConfusion h
      · rw [hn] at h
        have := ih as _ h
        simpa using this

theorem addAt_isSome_iff (ids : List ℤ) (amts : List ℚ) (v : List ℚ)
    (hl : ids.length = amts.length) :
    (addAt v ids amts).isSome ↔ ∀ i ∈ ids, (npIndex v.length i).isSome := by
  induction ids generalizing amts v with
  | nil => simp [addAt]
  | cons i is ih =>
    cases amts with
    | nil => simp at hl
    | cons a as =>
      unfold addAt
      rcases hn : npIndex v.length i with _ | j
      · simp [hn]
      · have hlen : (v.set j (v.getD j 0 + a)).length = v.length := by simp
        rw [ih as _ (by simpa using hl)]
        simp [hn, hlen]

theorem getD_set_self (v : List ℚ) (j : ℕ) (x : ℚ) (hj : j < v.length) :
    (v.set j x).getD j 0 = x := by
  simp [List.getD_eq_getElem?_getD, List.getElem?_set_self', List.getElem?_eq_getElem hj]

theorem getD_set_ne (v : List ℚ) (j j' : ℕ) (x : ℚ) (hne : j' ≠ j) :
    (v.set j' x).getD j 0 = v.getD j 0 := by
  simp [List.getD_eq_getElem?_getD, List.getElem?_set_ne hne]

theorem npIndex_lt (n : ℕ) (i : ℤ) (j : ℕ) (h : npIndex n i = some j) : j < n := by
  unfold npIndex at h
  split_ifs at h with h1 h2
  · obtain ⟨h1a, h1b⟩ := h1
    injection h with h'
    omega
  · obtain ⟨h2a, h2b⟩ := h2
    injection h with h'
    omega

theorem addAt_getD (ids : List ℤ) (amts : List ℚ) (v w : List ℚ)
    (h : addAt v ids amts = some w) (j : ℕ) :
    w.getD j 0 = v.getD j 0 +
      (((ids.zip amts).filter (fun p => npIndex v.length p.1 = some j)).map Prod.snd).sum := by
  induction ids generalizing amts v w with
  | nil =>
    simp [addAt] at h
    subst h; simp
  | cons i is ih =>
    cases amts with
    | nil =>
      simp [addAt] at h
      subst h; simp
    | cons a as =>
      unfold addAt at h
      rcases hn : npIndex v.length i with _ | j'
      · rw [hn] at h; exact Option.noConfusion h
      · rw [hn] at h
        have hv' : (v.set j' (v.getD j' 0 + a)).length = v.length := by simp
        have hrec := ih as _ w h
        rw [hv'] at hrec
        rw [hrec, List.zip_cons_cons, List.filter_cons]
        by_cases hj : j' = j
        · subst hj
          have hjlt : j' < v.length := npIndex_lt _ _ _ hn
          rw [getD_set_self v j' _ hjlt]
          simp [hn]
          try ring
        · rw [getD_set_ne v j j' _ hj]
          have : ¬ (npIndex v.length i = some j) := by
            rw [hn]; intro hcon; injection hcon with hcon'; exact hj hcon'
          simp [this]
          try ring

theorem push_no_evict (cap : ℕ) (batch : List TradeRec) : ∀ ring : List TradeRec,
    ring.length + batch.length ≤ cap → push cap ring batch = ring ++ batch := by
  induction batch with
  | nil => intro ring _; simp [push]
  | cons t ts ih =>
    intro ring hlen
    have h1 : pushOne cap ring t = ring ++ [t] := by
      unfold pushOne
      rw [if_neg]
      simp at hlen ⊢
      omega
    have : push cap ring (t :: ts) = push cap (pushOne cap ring t) ts := rfl
    rw [this, h1, ih (ring ++ [t]) (by simp at hlen ⊢; omega)]
    simp

theorem windowRows_all (ring : List TradeRec) (cutoff : ℚ)
    (h : ∀ t ∈ ring, ¬ t.timestamp < cutoff) : windowRows ring cutoff = ring := by
  unfold windowRows
  rw [List.takeWhile_eq_self_iff.2, List.reverse_reverse]
  intro t ht
  simp only [decide_eq_true_eq]
  exact h t (List.mem_reverse.1 ht)

theorem list_ext_getD (w₁ w₂ : List ℚ) (hlen : w₁.length = w₂.length)
    (h : ∀ j, w₁.getD j 0 = w₂.getD j 0) : w₁ = w₂ := by
  apply List.ext_getElem hlen
  intro i h1 h2
  have := h i
  rwa [List.getD_eq_getElem _ _ h1, List.getD_eq_getElem _ _ h2] at this

theorem zip_double_filter_sum (m : ℕ) (j : ℕ) (ids : List ℤ) (amts : List ℚ)
    (hlen : ids.length = amts.length) :
    (((ids.zip (amts.map (fun a => 2 * a))).filter
        (fun p => npIndex m p.1 = some j)).map Prod.snd).sum =
    2 * (((ids.zip amts).filter (fun p => npIndex m p.1 = some j)).map Prod.snd).sum := by
  induction ids generalizing amts with
  | nil => simp
  | cons i is ih =>
    cases amts with
    | nil => simp at hlen
    | cons a as =>
      simp only [List.map_cons, List.zip_cons_cons, List.filter_cons]
      by_cases hp : npIndex m i = some j
      · rw [if_pos (by simp [hp]), if_pos (by simp [hp])]
        simp only [List.map_cons, List.sum_cons]
        rw [ih as (by simpa using hlen)]
        ring
      · rw [if_neg (by simp [hp]), if_neg (by simp [hp])]
        exact ih as (by simpa using hlen)

theorem bucketIds_length (w : List TradeRec) : (bucketIds w).length = w.length := by
  cases w <;> simp [bucketIds]

theorem addAt_double (m : ℕ) (ids : List ℤ) (amts : List ℚ)
    (hlen : ids.length = amts.length) :
    addAt (zerosQ m) (ids ++ ids) (amts ++ amts) =
      addAt (zerosQ m) ids (amts.map (fun a => 2 * a)) := by
  have hmem : (∀ i ∈ ids ++ ids, (npIndex (zerosQ m).length i).isSome) ↔
      (∀ i ∈ ids, (npIndex (zerosQ m).length i).isSome) := by
    constructor
    · intro h i hi
      exact h i (List.mem_append.2 (Or.inl hi))
    · intro h i hi
      rcases List.mem_append.1 hi with hc | hc
      · exact h i hc
      · exact h i hc
  rcases h1 : addAt (zerosQ m) (ids ++ ids) (amts ++ amts) with _ | w1
  · rcases h2 : addAt (zerosQ m) ids (amts.map (fun a => 2 * a)) with _ | w2
    · rfl
    · exfalso
      have hs2 : (addAt (zerosQ m) ids (amts.map (fun a => 2 * a))).isSome := by
        rw [h2]; rfl
      have hs1 : (addAt (zerosQ m) (ids ++ ids) (amts ++ amts)).isSome := by
        rw [addAt_isSome_iff _ _ _ (by simp [hlen]), hmem]
        exact (addAt_isSome_iff _ _ _ (by simp [hlen])).1 hs2
      rw [h1] at hs1
      simp at hs1
  · rcases h2 : addAt (zerosQ m) ids (amts.map (fun a => 2 * a)) with _ | w2
    · exfalso
      have hs1 : (addAt (zerosQ m) (ids ++ ids) (amts ++ amts)).isSome := by
        rw [h1]; rfl
      have hs2 : (addAt (zerosQ m) ids (amts.map (fun a => 2 * a))).isSome := by
        rw [addAt_isSome_iff _ _ _ (by simp [hlen])]
        rw [addAt_isSome_iff _ _ _ (by simp [hlen]), hmem] at hs1
        exact hs1
      rw [h2] at hs2
      simp at hs2
    · congr 1
      apply list_ext_getD
      · rw [addAt_length _ _ _ _ h1, addAt_length _ _ _ _ h2]
      · intro j
        rw [addAt_getD _ _ _ _ h1 j, addAt_getD _ _ _ _ h2 j,
          List.zip_append hlen, List.filter_append, List.map_append, List.sum_append,
          zip_double_filter_sum _ _ _ _ hlen]
        ring

theorem doubleAmounts_map_amount (b : List TradeRec) :
    (doubleAmounts b).map TradeRec.amount = (b.map TradeRec.amount).map (fun a => 2 * a) := by
  simp [doubleAmounts]

theorem bucketIds_append_self (t0 : TradeRec) (rest : List TradeRec) :
    bucketIds ((t0 :: rest) ++ (t0 :: rest)) =
      bucketIds (t0 :: rest) ++ bucketIds (t0 :: rest) := by
  unfold bucketIds
  simp only [List.cons_append]
  rw [show t0 :: (rest ++ t0 :: rest) = (t0 :: rest) ++ (t0 :: rest) from rfl,
    List.map_append]

theorem bucketIds_double (b : List TradeRec) :
    bucketIds (doubleAmounts b) = bucketIds b := by
  cases b with
  | nil => rfl
  | cons t0 rest =>
    unfold bucketIds doubleAmounts
    simp only [List.map_cons, List.map_map]
    rfl

theorem zscore_double (b : List TradeRec) :
    volume_zscore_of_window (b ++ b) = volume_zscore_of_window (doubleAmounts b) := by
  cases b with
  | nil => rfl
  | cons t0 rest =>
    have hlen1 : ((t0 :: rest) ++ (t0 :: rest)).length ≠ 0 := by simp
    have hlen2 : (doubleAmounts (t0 :: rest)).length ≠ 0 := by simp [doubleAmounts]
    unfold volume_zscore_of_window
    rw [if_neg hlen1, if_neg hlen2]
    dsimp only
    rw [bucketIds_double, bucketIds_append_self]
    have hidne : bucketIds (t0 :: rest) ≠ [] := by
      have := bucketIds_length (t0 :: rest)
      intro hcon
      rw [hcon] at this
      simp at this
    have hlast : (bucketIds (t0 :: rest) ++ bucketIds (t0 :: rest)).getLastD 0 =
        (bucketIds (t0 :: rest)).getLastD 0 := by
      rw [List.getLastD_eq_getLast?, List.getLastD_eq_getLast?,
        List.getLast?_append_of_ne_nil _ hidne]
    rw [hlast]
    have hamts : ((t0 :: rest) ++ (t0 :: rest)).map TradeRec.amount =
        ((t0 :: rest).map TradeRec.amount) ++ ((t0 :: rest).map TradeRec.amount) :=
      List.map_append _ _ _
    rw [hamts, doubleAmounts_map_amount]
    by_cases hm : (bucketIds (t0 :: rest)).getLastD 0 + 1 < 0
    · rw [if_pos hm, if_pos hm]
    · rw [if_neg hm, if_neg hm,
        addAt_double _ _ _ (by rw [bucketIds_length]; simp)]

theorem buyVolume_append (w1 w2 : List TradeRec) :
    buyVolume (w1 ++ w2) = buyVolume w1 + buyVolume w2 := by
  simp [buyVolume, List.filter_append]

theorem sellVolume_append (w1 w2 : List TradeRec) :
    sellVolume (w1 ++ w2) = sellVolume w1 + sellVolume w2 := by
  simp [sellVolume, List.filter_append]

theorem buyVolume_double (b : List TradeRec) :
    buyVolume (doubleAmounts b) = 2 * buyVolume b := by
  induction b with
  | nil => simp [buyVolume, doubleAmounts]
  | cons t ts ih =>
    simp only [doubleAmounts, List.map_cons] at ih ⊢
    unfold buyVolume at ih ⊢
    by_cases hb : t.is_buy
    · rw [List.filter_cons_of_pos (by simpa using hb), List.filter_cons_of_pos (by simpa using hb)]
      simp only [List.map_cons, List.sum_cons]
      rw [ih]
      ring
    · rw [List.filter_cons_of_neg (by simpa using hb), List.filter_cons_of_neg (by simpa using hb)]
      exact ih

theorem sellVolume_double (b : List TradeRec) :
    sellVolume (doubleAmounts b) = 2 * sellVolume b := by
  induction b with
  | nil => simp [sellVolume, doubleAmounts]
  | cons t ts ih =>
    simp only [doubleAmounts, List.map_cons] at ih ⊢
    unfold sellVolume at ih ⊢
    by_cases hb : t.is_buy
    · rw [List.filter_cons_of_neg (by simpa using hb), List.filter_cons_of_neg (by simpa using hb)]
      exact ih
    · rw [List.filter_cons_of_pos (by simpa using hb), List.filter_cons_of_pos (by simpa using hb)]
      simp only [List.map_cons, List.sum_cons]
      rw [ih]
      ring

theorem amount_sum_double (b : List TradeRec) :
    ((doubleAmounts b).map TradeRec.amount).sum = 2 * (b.map TradeRec.amount).sum := by
  rw [doubleAmounts_map_amount]
  induction (b.map TradeRec.amount) with
  | nil => simp
  | cons a as ih => simp [ih]; ring

theorem compute_nofi_double (b : List TradeRec) :
    compute_nofi (b ++ b) = compute_nofi (doubleAmounts b) := by
  cases b with
  | nil => rfl
  | cons t0 rest =>
    unfold compute_nofi
    dsimp only
    have h1 : ¬ ((t0 :: rest) ++ (t0 :: rest)).length = 0 := by simp
    have h2 : ¬ (doubleAmounts (t0 :: rest)).length = 0 := by simp [doubleAmounts]
    rw [if_neg h1, if_neg h2, buyVolume_append, sellVolume_append, buyVolume_double,
      sellVolume_double,
      show buyVolume (t0 :: rest) + buyVolume (t0 :: rest) = 2 * buyVolume (t0 :: rest) from
        by ring,
      show sellVolume (t0 :: rest) + sellVolume (t0 :: rest) = 2 * sellVolume (t0 :: rest) from
        by ring]

theorem compute_efficiency_double (b : List TradeRec) :
    compute_efficiency (b ++ b) = compute_efficiency (doubleAmounts b) := by
  cases b with
  | nil => rfl
  | cons t0 rest =>
    cases rest with
    | nil =>
      show compute_efficiency [t0, t0] = compute_efficiency (doubleAmounts [t0])
      unfold compute_efficiency
      have hL : ¬ (([t0, t0] : List TradeRec).length < 2) := by norm_num
      have hR : (doubleAmounts [t0]).length < 2 := by norm_num [doubleAmounts]
      rw [if_neg hL, if_pos hR]
      dsimp only
      split_ifs <;> simp
    | cons t1 rs =>
      unfold compute_efficiency
      have hL : ¬ (((t0 :: t1 :: rs) ++ (t0 :: t1 :: rs)).length < 2) := by
        simp only [List.length_append, List.length_cons]
        omega
      have hR : ¬ ((doubleAmounts (t0 :: t1 :: rs)).length < 2) := by
        unfold doubleAmounts
        simp only [List.length_map, List.length_cons]
        omega
      rw [if_neg hL, if_neg hR]
      dsimp only
      have hhead : ((t0 :: t1 :: rs) ++ (t0 :: t1 :: rs)).headD ⟨0, false, 0, 0⟩ = t0 := rfl
      have hlast : ((t0 :: t1 :: rs) ++ (t0 :: t1 :: rs)).getLastD ⟨0, false, 0, 0⟩ =
          (t0 :: t1 :: rs).getLastD ⟨0, false, 0, 0⟩ := by
        rw [List.getLastD_eq_getLast?, List.getLastD_eq_getLast?,
          List.getLast?_append_of_ne_nil _ (by simp)]
      have hlast2 : ((doubleAmounts (t0 :: t1 :: rs)).getLastD ⟨0, false, 0, 0⟩).price =
          ((t0 :: t1 :: rs).getLastD ⟨0, false, 0, 0⟩).price := by
        unfold doubleAmounts
        rw [List.getLastD_eq_getLast?, List.getLastD_eq_getLast?, List.getLast?_map]
        cases hL : (t0 :: t1 :: rs).getLast? with
        | none => simp at hL
        | some x => simp
      have hhead2 : ((doubleAmounts (t0 :: t1 :: rs)).headD ⟨0, false, 0, 0⟩).price =
          t0.price := rfl
      rw [hhead, hlast, hhead2, hlast2, List.map_append, List.sum_append, amount_sum_double,
        show ((t0 :: t1 :: rs).map TradeRec.amount).sum +
            ((t0 :: t1 :: rs).map TradeRec.amount).sum =
          2 * ((t0 :: t1 :: rs).map TradeRec.amount).sum from by ring]

theorem chrono_head_le (t0 : TradeRec) (rest : List TradeRec) (h : Chrono (t0 :: rest)) :
    ∀ t ∈ t0 :: rest, t0.timestamp ≤ t.timestamp := by
  intro t ht
  rcases List.mem_cons.1 ht with rfl | ht2
  · exact le_refl _
  · exact (List.pairwise_cons.1 h).1 t ht2

theorem chrono_le_last (w : List TradeRec) (hw : Chrono w) (d : TradeRec) :
    ∀ t ∈ w, t.timestamp ≤ (w.getLastD d).timestamp := by
  induction w with
  | nil => intro t ht; simp at ht
  | cons x rest ih =>
    intro t ht
    cases rest with
    | nil =>
      rcases List.mem_cons.1 ht with rfl | ht2
      · exact le_refl _
      · simp at ht2
    | cons y r =>
      have hlast : ((x :: y :: r).getLastD d) = ((y :: r).getLastD d) := by
        simp [List.getLastD_cons]
      rw [hlast]
      have htail : Chrono (y :: r) := (List.pairwise_cons.1 hw).2
      rcases List.mem_cons.1 ht with rfl | ht2
      · have hmem : (y :: r).getLastD d ∈ y :: r := by
          have hne : (y :: r) ≠ [] := by simp
          rw [List.getLastD_eq_getLast?, List.getLast?_eq_getLast _ hne]
          · exact List.getLast_mem hne
        exact (List.pairwise_cons.1 hw).1 _ hmem
      · exact ih htail t ht2

theorem chrono_windowRows (ring : List TradeRec) (cutoff : ℚ) (h : Chrono ring) :
    Chrono (windowRows ring cutoff) := by
  unfold windowRows
  have h1 : (ring.reverse.takeWhile (fun t => ¬ t.timestamp < cutoff)).Sublist ring.reverse :=
    List.takeWhile_sublist _
  have h2 : ((ring.reverse.takeWhile (fun t => ¬ t.timestamp < cutoff)).reverse).Sublist
      ring.reverse.reverse := h1.reverse
  rw [List.reverse_reverse] at h2
  exact List.Pairwise.sublist h2 h

theorem bucketIds_getLastD (t0 : TradeRec) (rest : List TradeRec) :
    (bucketIds (t0 :: rest)).getLastD 0 =
      ⌊(((t0 :: rest).getLastD t0).timestamp - t0.timestamp) / 60000⌋ := by
  unfold bucketIds
  rw [List.getLastD_eq_getLast?, List.getLast?_map, List.getLastD_eq_getLast?,
    List.getLast?_eq_getLast _ (by simp : (t0 :: rest) ≠ [])]
  simp

theorem chrono_ids_bounds (t0 : TradeRec) (rest : List TradeRec)
    (hw : Chrono (t0 :: rest)) :
    ∀ i ∈ bucketIds (t0 :: rest), 0 ≤ i ∧ i ≤ (bucketIds (t0 :: rest)).getLastD 0 := by
  intro i hi
  unfold bucketIds at hi
  simp only [List.mem_map] at hi
  obtain ⟨t, ht, rfl⟩ := hi
  constructor
  · apply Int.floor_nonneg.2
    have := chrono_head_le t0 rest hw t ht
    have h60 : (0:ℚ) < 60000 := by norm_num
    apply div_nonneg (by linarith) h60.le
  · rw [bucketIds_getLastD]
    apply Int.floor_le_floor
    have hle := chrono_le_last (t0 :: rest) hw t0 t ht
    have h60 : (0:ℚ) < 60000 := by norm_num
    exact (div_le_div_right h60).2 (by linarith)

theorem npIndex_some_of_bounds (m : ℕ) (i last : ℤ) (hlast : 0 ≤ last)
    (hm : m = (last + 1).toNat) (h0 : 0 ≤ i) (h1 : i ≤ last) :
    npIndex m i = some i.toNat := by
  unfold npIndex
  rw [if_pos]
  constructor
  · exact h0
  · rw [hm]
    omega

theorem getLastD_mem (w : List TradeRec) (d : TradeRec) (hne : w ≠ []) :
    w.getLastD d ∈ w := by
  rw [List.getLastD_eq_getLast?, List.getLast?_eq_getLast _ hne]
  exact List.getLast_mem hne

theorem bucketIds_getLastD_nonneg (t0 : TradeRec) (rest : List TradeRec)
    (hw : Chrono (t0 :: rest)) : 0 ≤ (bucketIds (t0 :: rest)).getLastD 0 := by
  rw [bucketIds_getLastD]
  apply Int.floor_nonneg.2
  apply div_nonneg _ (by norm_num : (0:ℚ) ≤ 60000)
  have hmem : ((t0 :: rest).getLastD t0) ∈ t0 :: rest := getLastD_mem _ _ (by simp)
  have := chrono_head_le t0 rest hw _ hmem
  linarith

theorem zscore_isSome_of_chrono (w : List TradeRec) (hw : Chrono w) :
    (volume_zscore_of_window w).isSome := by
  cases w with
  | nil => rfl
  | cons t0 rest =>
    unfold volume_zscore_of_window
    rw [if_neg (by simp)]
    dsimp only
    have hlast0 := bucketIds_getLastD_nonneg t0 rest hw
    rw [if_neg (by omega : ¬ ((bucketIds (t0 :: rest)).getLastD 0 + 1 < 0))]
    have hvalid : ∀ i ∈ bucketIds (t0 :: rest),
        (npIndex (zerosQ ((bucketIds (t0 :: rest)).getLastD 0 + 1).toNat).length i).isSome := by
      intro i hi
      obtain ⟨h0, h1⟩ := chrono_ids_bounds t0 rest hw i hi
      rw [npIndex_some_of_bounds _ i ((bucketIds (t0 :: rest)).getLastD 0) hlast0
        (by simp [zerosQ]) h0 h1]
      rfl
    have hs := (addAt_isSome_iff (bucketIds (t0 :: rest)) ((t0 :: rest).map TradeRec.amount)
      (zerosQ ((bucketIds (t0 :: rest)).getLastD 0 + 1).toNat)
      (by rw [bucketIds_length]; simp)).2 hvalid
    rcases hadd : addAt (zerosQ ((bucketIds (t0 :: rest)).getLastD 0 + 1).toNat)
        (bucketIds (t0 :: rest)) ((t0 :: rest).map TradeRec.amount) with _ | vols
    · rw [hadd] at hs; simp at hs
    · dsimp only
      split_ifs <;> rfl

theorem range_map_getD (m : ℕ) (g : ℕ → ℚ) (j : ℕ) :
    ((List.range m).map g).getD j 0 = if j < m then g j else 0 := by
  rw [List.getD_eq_getElem?_getD, List.getElem?_map]
  by_cases hj : j < m
  · rw [List.getElem?_range hj]
    simp [hj]
  · rw [if_neg hj]
    have : (List.range m)[j]? = none := by
      rw [List.getElem?_eq_none]
      simpa using Nat.le_of_not_lt hj
    simp [this]

/-! ## Claims -/

/-! ## Claims -/

/-- **C2** (confirmed). From a tracker whose H4_High hunt is SCANNING with
`level_price = 100`, `opposite_price = 90` (all other levels unset): a tick
at price 100.10 with nOFI 0.1 at `t0 = 1000 s` moves H4_High to SWEEPING
with `sweep_start = t0` and `wick_extreme = 100.10`; a tick at 99.95 with
nOFI 0 at `t0+5` moves it to CONFIRMING; a tick at 99.80 with nOFI −0.80 at
`t0+10` moves it to COOLDOWN with `cooldown_until = (t0+10) + 1800` and
emits `SweepResult{sell, HIGH, H4_High, 100, 100.10, fib_tp 95, range 100/90}`. -/
theorem C2_h4_high_sweep_scenario :
    (check_hunt { c2_tracker with current_price := 1001/10 } (1/10) 1000).1 = none ∧
    (check_hunt { c2_tracker with current_price := 1001/10 } (1/10) 1000).2.hunt_h4_high =
      ⟨"H4_High", true, .SWEEPING, 100, 90, 1001/10, 1000, 0⟩ ∧
    (check_hunt
      { (check_hunt { c2_tracker with current_price := 1001/10 } (1/10) 1000).2 with
        current_price := 9995/100 } 0 1005).1 = none ∧
    (check_hunt
      { (check_hunt { c2_tracker with current_price := 1001/10 } (1/10) 1000).2 with
        current_price := 9995/100 } 0 1005).2.hunt_h4_high =
      ⟨"H4_High", true, .CONFIRMING, 100, 90, 1001/10, 1000, 0⟩ ∧
    (check_hunt
      { (check_hunt
          { (check_hunt { c2_tracker with current_price := 1001/10 } (1/10) 1000).2 with
            current_price := 9995/100 } 0 1005).2 with
        current_price := 998/10 } (-(8/10)) 1010).1 =
      some ⟨"sell", "HIGH", "H4_High", 100, 1001/10, 95, 100, 90⟩ ∧
    (check_hunt
      { (check_hunt
          { (check_hunt { c2_tracker with current_price := 1001/10 } (1/10) 1000).2 with
            current_price := 9995/100 } 0 1005).2 with
        current_price := 998/10 } (-(8/10)) 1010).2.hunt_h4_high =
      ⟨"H4_High", true, .COOLDOWN, 100, 90, 1001/10, 1000, 1010 + 1800⟩ := by
  norm_num [check_hunt, hunt_step, tick_hunt, build_result, c2_tracker, freshLevelTracker,
    defaultLevelConfig, pyround, round_eq]

/-- **C3** counterexample. A hunter-emitted `SweepResult` whose emitted
`fib_tp` is *not* the midpoint of its emitted `range_low`/`range_high`:
from the level range `[1.001, 1.006]` the emitted fields are
`range_low = 1.00`, `range_high = 1.01`, `fib_tp = 1.00`, but
`(1.00 + 1.01)/2 = 1.005 ≠ 1.00` (2-decimal rounding is applied to each
field separately). -/
theorem C3_counterexample :
    (check_hunt c3_tracker (-(8/10)) 1001).1 = some c3_result ∧
    c3_result.fib_tp ≠ (c3_result.range_low + c3_result.range_high) / 2 := by
  norm_num [check_hunt, hunt_step, tick_hunt, build_result, c3_tracker, c3_result,
    freshLevelTracker, defaultLevelConfig, pyround, round_eq]

/-- **C3** (amended). Every `SweepResult` built by the hunter satisfies
`range_low ≤ fib_tp ≤ range_high` on the emitted (rounded) fields, and the
emitted `fib_tp` is the 2-decimal rounding of the midpoint
`(range_low_raw + range_high_raw)/2` of the *raw* level range — the
midpoint identity holds before the per-field rounding, not necessarily
between the rounded fields. -/
theorem C3_fib_tp_midpoint (h : HuntState) (side : String) :
    (build_result h side).range_low ≤ (build_result h side).fib_tp ∧
    (build_result h side).fib_tp ≤ (build_result h side).range_high ∧
    (build_result h side).fib_tp =
      pyround 2 ((min h.level_price h.opposite_price + max h.level_price h.opposite_price) / 2) := by
  have hmm : min h.level_price h.opposite_price ≤ max h.level_price h.opposite_price :=
    min_le_max
  unfold build_result
  refine ⟨pyround_mono (by linarith), pyround_mono (by linarith), ?_⟩
  ring_nf

/-- **C5** counterexample. On the window holding a single zero-amount trade,
one side (indeed both sides) has zero volume, yet `|nofi| = 0 ≠ 1`: the
claimed "iff one side has zero volume" fails when the total volume is 0. -/
theorem C5_counterexample :
    ((compute_nofi c5_window).2.1 = 0 ∨ (compute_nofi c5_window).2.2 = 0) ∧
    ¬ |(compute_nofi c5_window).1| = 1 := by
  norm_num [compute_nofi, c5_window, buyVolume, sellVolume]

/-- **C1** counterexample. With the default config, a buy signal at
`bid = ask = 20 000 000`, `stop_loss = 19 990 000` passes every check: the
unclamped size `0.01` meets `min_order_qty`, but the no-leverage clamp
`balance/entry = 10000/2·10⁷ = 0.0005` then brings the returned
`position_size` below `min_order_qty = 0.001` (the source checks the
minimum before clamping). -/
theorem C1_counterexample :
    (process_signal (freshRisk defaultRiskConfig 0) ⟨"buy", 19990000, "", 0⟩
        20000000 20000000 0).1 =
      some ⟨"buy", 20000000, 19990000, 20020000, 1/2000, "", 0⟩ ∧
    (1 : ℚ)/2000 < defaultRiskConfig.min_order_qty := by
  norm_num [process_signal, process_signal_order, check_day_rollover, freshRisk,
    defaultRiskConfig, calculate_position_size, pyround, round_eq,
    (by decide : ("buy" : String) ≠ "sell"), (by decide : ("buy" : String) = "buy")]

/-- **C7** (confirmed). With the default config (balance 10000,
`max_daily_loss_pct = 0.03`): after `record_fill(−150)` then
`record_fill(−160)` on the same day, `daily_pnl = −310 ≤ −300`; the next
`process_signal` that day returns `none` with `daily_halted = true` in its
post-state; any `process_signal` on a daily-halted state whose day has not
changed returns `none` and leaves the state untouched; and the first call
on a different day resets `daily_pnl = 0`, `consecutive_losses = 0`,
`daily_halted = false`. (The breaker is in fact already latched by the
second `record_fill`, which only strengthens the claim's "next
process_signal rejects".) -/
theorem C7_daily_loss_breaker :
    (record_fill (record_fill (freshRisk defaultRiskConfig 0) (-150) 0) (-160) 0).daily_pnl = -310 ∧
    (record_fill (record_fill (freshRisk defaultRiskConfig 0) (-150) 0) (-160) 0).daily_pnl
      ≤ -(defaultRiskConfig.account_balance * defaultRiskConfig.max_daily_loss_pct) ∧
    (∀ sig : TradeSignal, ∀ bid ask : ℚ,
      (process_signal (record_fill (record_fill (freshRisk defaultRiskConfig 0) (-150) 0) (-160) 0)
          sig bid ask 0).1 = none ∧
      (process_signal (record_fill (record_fill (freshRisk defaultRiskConfig 0) (-150) 0) (-160) 0)
          sig bid ask 0).2.daily_halted = true) ∧
    (∀ s : RiskState, s.daily_halted = true →
      ∀ sig : TradeSignal, ∀ bid ask : ℚ,
        process_signal s sig bid ask s.current_day = (none, s)) ∧
    (∀ sig : TradeSignal, ∀ bid ask : ℚ, ∀ d : ℕ, d ≠ 0 →
      (process_signal (record_fill (record_fill (freshRisk defaultRiskConfig 0) (-150) 0) (-160) 0)
          sig bid ask d).2.daily_pnl = 0 ∧
      (process_signal (record_fill (record_fill (freshRisk defaultRiskConfig 0) (-150) 0) (-160) 0)
          sig bid ask d).2.consecutive_losses = 0 ∧
      (process_signal (record_fill (record_fill (freshRisk defaultRiskConfig 0) (-150) 0) (-160) 0)
          sig bid ask d).2.daily_halted = false) := by
  refine ⟨?_, ?_, ?_, ?_, ?_⟩
  · norm_num [record_fill, check_day_rollover, freshRisk, defaultRiskConfig]
  · norm_num [record_fill, check_day_rollover, freshRisk, defaultRiskConfig]
  · intro sig bid ask
    constructor
    · norm_num [process_signal, record_fill, check_day_rollover, freshRisk, defaultRiskConfig]
    · norm_num [process_signal, record_fill, check_day_rollover, freshRisk, defaultRiskConfig]
  · intro s hs sig bid ask
    simp [process_signal, check_day_rollover, hs]
  · intro sig bid ask d hd
    norm_num [process_signal, record_fill, check_day_rollover, freshRisk, defaultRiskConfig, hd]
    split_ifs <;> simp

/-- Witness for C7: the latching conjunct applied to a concrete halted
state, and the rollover conjunct applied on day 1. -/
theorem C7_daily_loss_breaker_witness :
    process_signal { freshRisk defaultRiskConfig 0 with daily_halted := true }
        ⟨"buy", 49500, "", 0⟩ 50000 50000 0 =
      (none, { freshRisk defaultRiskConfig 0 with daily_halted := true }) ∧
    (process_signal (record_fill (record_fill (freshRisk defaultRiskConfig 0) (-150) 0) (-160) 0)
        ⟨"buy", 49500, "", 0⟩ 50000 50000 1).2.daily_halted = false :=
  ⟨C7_daily_loss_breaker.2.2.2.1 _ rfl ⟨"buy", 49500, "", 0⟩ 50000 50000,
   (C7_daily_loss_breaker.2.2.2.2 ⟨"buy", 49500, "", 0⟩ 50000 50000 1 (by decide)).2.2⟩

/-- **C4** (confirmed). For every hunt that is not in SCANNING, its
`level_price` and `opposite_price` are unchanged by any sequence of
`push_trade` calls: level recomputation on candle close rewrites only the
hunts whose state is SCANNING. -/
theorem C4_level_pinning (lt : LevelTracker) (trades : List (ℚ × ℚ × ℚ)) :
    (lt.hunt_h1_high.state ≠ .SCANNING →
      (push_trades lt trades).hunt_h1_high.level_price = lt.hunt_h1_high.level_price ∧
      (push_trades lt trades).hunt_h1_high.opposite_price = lt.hunt_h1_high.opposite_price) ∧
    (lt.hunt_h1_low.state ≠ .SCANNING →
      (push_trades lt trades).hunt_h1_low.level_price = lt.hunt_h1_low.level_price ∧
      (push_trades lt trades).hunt_h1_low.opposite_price = lt.hunt_h1_low.opposite_price) ∧
    (lt.hunt_h4_high.state ≠ .SCANNING →
      (push_trades lt trades).hunt_h4_high.level_price = lt.hunt_h4_high.level_price ∧
      (push_trades lt trades).hunt_h4_high.opposite_price = lt.hunt_h4_high.opposite_price) ∧
    (lt.hunt_h4_low.state ≠ .SCANNING →
      (push_trades lt trades).hunt_h4_low.level_price = lt.hunt_h4_low.level_price ∧
      (push_trades lt trades).hunt_h4_low.opposite_price = lt.hunt_h4_low.opposite_price) := by
  have h := push_trades_hunts trades lt
  exact ⟨fun hne => by rw [h.1.2 hne]; exact ⟨rfl, rfl⟩,
         fun hne => by rw [h.2.1.2 hne]; exact ⟨rfl, rfl⟩,
         fun hne => by rw [h.2.2.1.2 hne]; exact ⟨rfl, rfl⟩,
         fun hne => by rw [h.2.2.2.2 hne]; exact ⟨rfl, rfl⟩⟩

/-- Witness for C4: a SWEEPING H4_High hunt keeps its level 100 / opposite
90 across three pushes that do trigger a level recomputation. -/
theorem C4_level_pinning_witness :
    (push_trades c4_tracker c4_trades).hunt_h4_high.level_price = 100 ∧
    (push_trades c4_tracker c4_trades).hunt_h4_high.opposite_price = 90 :=
  (C4_level_pinning c4_tracker c4_trades).2.2.1 (by decide)

/-- **C10** (confirmed, implicit claim). Starting from a fresh
`LevelTracker`, as long as fewer than two candles have been finalised every
hunt is still SCANNING with `level_price = 0`, and `check_hunt` returns
`none` leaving the tracker untouched (levels are only recomputed once the
candle ring holds two candles; `check_hunt` skips hunts with an unset
level, and returns immediately while no trade has set a price). -/
theorem C10_warmup_emits_nothing (trades : List (ℚ × ℚ × ℚ))
    (hlen : (push_trades freshLevelTracker trades).candles.length < 2) :
    ((push_trades freshLevelTracker trades).hunt_h1_high.state = .SCANNING ∧
      (push_trades freshLevelTracker trades).hunt_h1_high.level_price = 0) ∧
    ((push_trades freshLevelTracker trades).hunt_h1_low.state = .SCANNING ∧
      (push_trades freshLevelTracker trades).hunt_h1_low.level_price = 0) ∧
    ((push_trades freshLevelTracker trades).hunt_h4_high.state = .SCANNING ∧
      (push_trades freshLevelTracker trades).hunt_h4_high.level_price = 0) ∧
    ((push_trades freshLevelTracker trades).hunt_h4_low.state = .SCANNING ∧
      (push_trades freshLevelTracker trades).hunt_h4_low.level_price = 0) ∧
    (∀ nofi now : ℚ, check_hunt (push_trades freshLevelTracker trades) nofi now =
      (none, push_trades freshLevelTracker trades)) := by
  obtain ⟨e1, e2, e3, e4⟩ :=
    push_trades_keeps trades freshLevelTracker (by norm_num [freshLevelTracker, defaultLevelConfig])
      hlen
  refine ⟨⟨by rw [e1]; rfl, by rw [e1]; rfl⟩, ⟨by rw [e2]; rfl, by rw [e2]; rfl⟩,
    ⟨by rw [e3]; rfl, by rw [e3]; rfl⟩, ⟨by rw [e4]; rfl, by rw [e4]; rfl⟩, fun nofi now =>
      check_hunt_unset _ nofi now (by rw [e1]; rfl) (by rw [e2]; rfl) (by rw [e3]; rfl)
        (by rw [e4]; rfl)⟩

/-- Witness for C10: three trades spanning two buckets finalise a single
candle; the hunter stays silent and SCANNING. -/
theorem C10_warmup_emits_nothing_witness :
    (push_trades freshLevelTracker c10_trades).candles.length < 2 ∧
    (push_trades freshLevelTracker c10_trades).hunt_h4_high.state = .SCANNING ∧
    (push_trades freshLevelTracker c10_trades).hunt_h4_high.level_price = 0 ∧
    check_hunt (push_trades freshLevelTracker c10_trades) (1/2) 999 =
      (none, push_trades freshLevelTracker c10_trades) := by
  have hlen : (push_trades freshLevelTracker c10_trades).candles.length < 2 := by
    norm_num [push_trades, push_trade, c10_trades, freshLevelTracker, defaultLevelConfig,
      recompute_levels, appendCapped]
  exact ⟨hlen, (C10_warmup_emits_nothing c10_trades hlen).2.2.1.1,
    (C10_warmup_emits_nothing c10_trades hlen).2.2.1.2,
    (C10_warmup_emits_nothing c10_trades hlen).2.2.2.2 (1/2) 999⟩

/-- **C5** (amended). For every window with non-negative amounts the nOFI is
`(V_buy − V_sell)/(V_buy + V_sell)` when the total volume is positive and 0
when it is 0; hence `nofi ∈ [−1, 1]`, and `|nofi| = 1` iff the total volume
is positive *and* one side has zero volume (when both sides have zero
volume the nOFI is 0, so the original "iff one side has zero volume" fails
there). -/
theorem C5_nofi_bounds (w : List TradeRec) (hw : ∀ t ∈ w, 0 ≤ t.amount) :
    (compute_nofi w).2.1 = buyVolume w ∧
    (compute_nofi w).2.2 = sellVolume w ∧
    (compute_nofi w).1 =
      (if buyVolume w + sellVolume w = 0 then 0
       else (buyVolume w - sellVolume w) / (buyVolume w + sellVolume w)) ∧
    -1 ≤ (compute_nofi w).1 ∧ (compute_nofi w).1 ≤ 1 ∧
    (|(compute_nofi w).1| = 1 ↔
      0 < buyVolume w + sellVolume w ∧ (buyVolume w = 0 ∨ sellVolume w = 0)) := by
  have hb := buyVolume_nonneg w hw
  have hs := sellVolume_nonneg w hw
  unfold compute_nofi
  dsimp only
  by_cases hlen : w.length = 0
  · rw [List.length_eq_zero] at hlen
    subst hlen
    norm_num [buyVolume, sellVolume]
  · simp only [hlen, if_false]
    by_cases htot : buyVolume w + sellVolume w = 0
    · rw [if_pos htot, if_pos htot]
      refine ⟨rfl, rfl, rfl, by norm_num, by norm_num, ?_⟩
      simp [htot]
    · have htot' : 0 < buyVolume w + sellVolume w :=
        lt_of_le_of_ne (by linarith) (Ne.symm htot)
      rw [if_neg htot, if_neg htot]
      refine ⟨rfl, rfl, rfl, ?_, ?_, ?_⟩
      · rw [le_div_iff htot']; linarith
      · rw [div_le_one htot']; linarith
      · rw [abs_div, abs_of_pos htot', div_eq_one_iff_eq (ne_of_gt htot')]
        constructor
        · intro habs
          rcases (abs_eq (by linarith : (0:ℚ) ≤ buyVolume w + sellVolume w)).1 habs with h | h
          · exact ⟨htot', Or.inr (by linarith)⟩
          · exact ⟨htot', Or.inl (by linarith)⟩
        · rintro ⟨-, h | h⟩
          · rw [h, abs_of_nonpos (by linarith)]; ring
          · rw [h, abs_of_nonneg (by linarith)]; ring

/-- Witness for C5: the theorem applied to the S1 window
(`buy 1, sell 1, buy 2` ⇒ nofi = 1/2). -/
theorem C5_nofi_bounds_witness :
    (∀ t ∈ s1_window, 0 ≤ t.amount) ∧
    -1 ≤ (compute_nofi s1_window).1 ∧ (compute_nofi s1_window).1 ≤ 1 :=
  ⟨by norm_num [s1_window],
   (C5_nofi_bounds s1_window (by norm_num [s1_window])).2.2.2.1,
   (C5_nofi_bounds s1_window (by norm_num [s1_window])).2.2.2.2.1⟩

/-- **C1** (amended). For every signal, bid, ask for which `process_signal`
returns a `ValidatedOrder` (any state whose config has a positive
reward/risk ratio): with `entry` the raw entry price (ask for a buy, bid
otherwise) and `tp` the raw take-profit, the emitted `entry_price`,
`stop_loss`, `take_profit` are the 8-decimal roundings of the raw values;
for a buy `stop_loss < entry < tp` holds on the raw values (and weakly on
the rounded fields), symmetrically for a sell; `|tp − entry| =
reward_risk_ratio · |entry − stop_loss|` holds exactly on the raw values;
the *unclamped* size `(balance · risk_per_trade)/risk_distance` is
`≥ min_order_qty`; and `position_size` is the 8-decimal rounding of the
clamped size, hence `≤ round₈(balance/entry)`. (The original claim fails
as stated: the no-leverage clamp runs *after* the minimum-quantity check,
so the emitted size can fall below `min_order_qty`, and the per-field
roundings weaken the exact relations — see the counterexample.) -/
theorem C1_order_invariants (s : RiskState) (sig : TradeSignal) (bid ask : ℚ) (today : ℕ)
    (o : ValidatedOrder) (hr : 0 < s.config.reward_risk_ratio)
    (ho : (process_signal s sig bid ask today).1 = some o) :
    o.entry_price = pyround 8 (entry_of sig bid ask) ∧
    o.stop_loss = pyround 8 sig.stop_loss ∧
    o.take_profit = pyround 8 (tp_of s.config sig bid ask) ∧
    (sig.side = "buy" →
      sig.stop_loss < entry_of sig bid ask ∧
      entry_of sig bid ask < tp_of s.config sig bid ask ∧
      o.stop_loss ≤ o.entry_price ∧ o.entry_price ≤ o.take_profit) ∧
    (sig.side = "sell" →
      tp_of s.config sig bid ask < entry_of sig bid ask ∧
      entry_of sig bid ask < sig.stop_loss ∧
      o.take_profit ≤ o.entry_price ∧ o.entry_price ≤ o.stop_loss) ∧
    |tp_of s.config sig bid ask - entry_of sig bid ask| =
      s.config.reward_risk_ratio * |entry_of sig bid ask - sig.stop_loss| ∧
    s.config.min_order_qty ≤
      s.config.account_balance * s.config.max_account_risk_pct /
        |entry_of sig bid ask - sig.stop_loss| ∧
    o.position_size =
      pyround 8 (min
        (s.config.account_balance * s.config.max_account_risk_pct /
          |entry_of sig bid ask - sig.stop_loss|)
        (s.config.account_balance / entry_of sig bid ask)) ∧
    o.position_size ≤ pyround 8 (s.config.account_balance / entry_of sig bid ask) :=
  process_signal_order_spec s.config sig bid ask o hr
    (process_signal_fst s sig bid ask today o ho)

/-- Witness for C1: the S5 sizing scenario — buy at ask 50000 with stop
49500 yields entry 50000, tp 51000, size 0.2. -/
theorem C1_order_invariants_witness :
    (process_signal (freshRisk defaultRiskConfig 0) ⟨"buy", 49500, "", 0⟩ 50000 50000 0).1 =
      some ⟨"buy", 50000, 49500, 51000, 1/5, "", 0⟩ ∧
    (49500 : ℚ) < entry_of ⟨"buy", 49500, "", 0⟩ 50000 50000 ∧
    entry_of ⟨"buy", 49500, "", 0⟩ 50000 50000 <
      tp_of defaultRiskConfig ⟨"buy", 49500, "", 0⟩ 50000 50000 := by
  have ho : (process_signal (freshRisk defaultRiskConfig 0) ⟨"buy", 49500, "", 0⟩
      50000 50000 0).1 = some ⟨"buy", 50000, 49500, 51000, 1/5, "", 0⟩ := by
    norm_num [process_signal, process_signal_order, check_day_rollover, freshRisk,
      defaultRiskConfig, calculate_position_size, pyround, round_eq,
      (by decide : ("buy" : String) ≠ "sell"), (by decide : ("buy" : String) = "buy")]
  have h := C1_order_invariants (freshRisk defaultRiskConfig 0) ⟨"buy", 49500, "", 0⟩
    50000 50000 0 ⟨"buy", 50000, 49500, 51000, 1/5, "", 0⟩
    (by norm_num [freshRisk, defaultRiskConfig]) ho
  exact ⟨ho, (h.2.2.2.1 rfl).1, (h.2.2.2.1 rfl).2.1⟩

/-- **C8** counterexample. With a ring capacity of 3, pushing the two-trade
batch (sell 1, buy 1) twice evicts the oldest entry, leaving [buy, sell,
buy] (nOFI = 1/3), while pushing the doubled batch once keeps both sides
balanced (nOFI = 0): eviction breaks the push-twice/push-doubled
equivalence even though every timestamp lies inside both windows. -/
theorem C8_counterexample :
    compute_metrics c8_config
        (push c8_config.max_buffer_size (push c8_config.max_buffer_size [] c8_batch) c8_batch)
        1 ≠
      compute_metrics c8_config (push c8_config.max_buffer_size [] c8_batch_doubled) 1 := by
  intro h
  have h2 := congrArg (Option.map MarketMetrics.nofi) h
  have e1 : (compute_metrics c8_config
      (push c8_config.max_buffer_size (push c8_config.max_buffer_size [] c8_batch) c8_batch)
      1).map MarketMetrics.nofi = some (3333/10000) := by
    norm_num [compute_metrics, build_metrics, volume_zscore_of_window, windowRows, push,
      pushOne, c8_config, defaultImbalanceConfig, c8_batch, compute_nofi, buyVolume,
      sellVolume, compute_efficiency, bucketIds, addAt, npIndex, zerosQ, pyround, round_eq]
  have e2 : (compute_metrics c8_config
      (push c8_config.max_buffer_size [] c8_batch_doubled) 1).map MarketMetrics.nofi =
      some 0 := by
    norm_num [compute_metrics, build_metrics, volume_zscore_of_window, windowRows, push,
      pushOne, c8_config, defaultImbalanceConfig, c8_batch_doubled, compute_nofi, buyVolume,
      sellVolume, compute_efficiency, bucketIds, addAt, npIndex, zerosQ, pyround, round_eq]
  rw [e1, e2] at h2
  have h3 := Option.some.inj h2
  norm_num at h3

/-- **C8** (amended). For every config, every batch whose timestamps all lie
inside both the nOFI and the volume windows at evaluation time, *and whose
doubled length fits the ring capacity* (so no eviction occurs), pushing the
batch twice into a fresh tracker yields exactly the same `compute_metrics`
outcome as pushing the batch once with all amounts doubled. -/
theorem C8_push_twice_eq_doubled (cfg : ImbalanceConfig) (batch : List TradeRec) (now_ms : ℚ)
    (hwin : ∀ t ∈ batch, ¬ t.timestamp < now_ms - cfg.nofi_window_sec * 1000 ∧
      ¬ t.timestamp < now_ms - cfg.volume_window_min * 60 * 1000)
    (hcap : 2 * batch.length ≤ cfg.max_buffer_size) :
    compute_metrics cfg
      (push cfg.max_buffer_size (push cfg.max_buffer_size [] batch) batch) now_ms =
    compute_metrics cfg (push cfg.max_buffer_size [] (doubleAmounts batch)) now_ms := by
  have hp1 : push cfg.max_buffer_size [] batch = batch := by
    have := push_no_evict cfg.max_buffer_size batch [] (by simp; omega)
    simpa using this
  have hp2 : push cfg.max_buffer_size batch batch = batch ++ batch :=
    push_no_evict _ _ _ (by omega)
  have hp3 : push cfg.max_buffer_size [] (doubleAmounts batch) = doubleAmounts batch := by
    have := push_no_evict cfg.max_buffer_size (doubleAmounts batch) []
      (by simp [doubleAmounts]; omega)
    simpa using this
  rw [hp1, hp2, hp3]
  have hmem1 : ∀ t ∈ batch ++ batch, ¬ t.timestamp < now_ms - cfg.nofi_window_sec * 1000 := by
    intro t ht
    rcases List.mem_append.1 ht with h | h <;> exact (hwin t h).1
  have hmem2 : ∀ t ∈ batch ++ batch,
      ¬ t.timestamp < now_ms - cfg.volume_window_min * 60 * 1000 := by
    intro t ht
    rcases List.mem_append.1 ht with h | h <;> exact (hwin t h).2
  have hmemd : ∀ t ∈ doubleAmounts batch,
      ¬ t.timestamp < now_ms - cfg.nofi_window_sec * 1000 := by
    intro t ht
    simp only [doubleAmounts, List.mem_map] at ht
    obtain ⟨t2, ht2, rfl⟩ := ht
    exact (hwin t2 ht2).1
  have hmemd2 : ∀ t ∈ doubleAmounts batch,
      ¬ t.timestamp < now_ms - cfg.volume_window_min * 60 * 1000 := by
    intro t ht
    simp only [doubleAmounts, List.mem_map] at ht
    obtain ⟨t2, ht2, rfl⟩ := ht
    exact (hwin t2 ht2).2
  unfold compute_metrics
  dsimp only
  rw [windowRows_all _ _ hmem1, windowRows_all _ _ hmem2, windowRows_all _ _ hmemd,
    windowRows_all _ _ hmemd2, compute_nofi_double, compute_efficiency_double, zscore_double]


/-- Witness for C8: the S1 batch at `now_ms = 30000`, default config. -/
theorem C8_push_twice_eq_doubled_witness :
    compute_metrics defaultImbalanceConfig
        (push defaultImbalanceConfig.max_buffer_size
          (push defaultImbalanceConfig.max_buffer_size [] s1_window) s1_window) 30000 =
      compute_metrics defaultImbalanceConfig
        (push defaultImbalanceConfig.max_buffer_size [] (doubleAmounts s1_window)) 30000 :=
  C8_push_twice_eq_doubled defaultImbalanceConfig s1_window 30000
    (by norm_num [s1_window, defaultImbalanceConfig])
    (by norm_num [s1_window, defaultImbalanceConfig])

/-- **C9** counterexample. `compute_metrics` *can* raise: on a ring whose
two entries are out of chronological order (a tolerated state — "out-of-
order within a batch is tolerated but not corrected"), the bucket ids are
`[0, −1]`, `np.zeros` gets size 0 and `np.add.at` is indexed out of range
(an `IndexError`), modelled here as `none`. -/
theorem C9_counterexample : compute_metrics defaultImbalanceConfig c9_ring 60000 = none := by
  norm_num [compute_metrics, windowRows, c9_ring, defaultImbalanceConfig, compute_nofi,
    buyVolume, sellVolume, compute_efficiency, volume_zscore_of_window, bucketIds, addAt,
    npIndex, zerosQ, List.takeWhile, pyround, round_eq]

/-- **C9** (amended). On the empty ring `compute_metrics` returns the
all-zero metrics record (`nofi = buy_volume = sell_volume = efficiency =
volume_zscore = 0`, neither flag set, `trend = NEUTRAL`,
`status = MONITORING`); and it never raises *provided the ring is in
chronological order* — for an out-of-order ring the Z-score pass can throw
(see the counterexample). -/
theorem C9_empty_metrics_and_no_raise (now_ms : ℚ) :
    compute_metrics defaultImbalanceConfig [] now_ms =
      some (build_metrics defaultImbalanceConfig 0 0 0 0 0) ∧
    (build_metrics defaultImbalanceConfig 0 0 0 0 0).nofi = 0 ∧
    (build_metrics defaultImbalanceConfig 0 0 0 0 0).buy_volume = 0 ∧
    (build_metrics defaultImbalanceConfig 0 0 0 0 0).sell_volume = 0 ∧
    (build_metrics defaultImbalanceConfig 0 0 0 0 0).efficiency = 0 ∧
    (build_metrics defaultImbalanceConfig 0 0 0 0 0).volume_zscore = 0 ∧
    ¬ (build_metrics defaultImbalanceConfig 0 0 0 0 0).is_significant ∧
    ¬ (build_metrics defaultImbalanceConfig 0 0 0 0 0).is_absorption ∧
    (build_metrics defaultImbalanceConfig 0 0 0 0 0).trend = "NEUTRAL" ∧
    (build_metrics defaultImbalanceConfig 0 0 0 0 0).status = "MONITORING" ∧
    (∀ (cfg : ImbalanceConfig) (ring : List TradeRec) (now2 : ℚ), Chrono ring →
      (compute_metrics cfg ring now2).isSome) := by
  refine ⟨rfl, ?_, ?_, ?_, ?_, ?_, ?_, ?_, ?_, ?_, ?_⟩
  · norm_num [build_metrics, pyround, round_eq]
  · norm_num [build_metrics, pyround, round_eq]
  · norm_num [build_metrics, pyround, round_eq]
  · norm_num [build_metrics, pyround, round_eq]
  · norm_num [build_metrics, pyroundR]
  · norm_num [build_metrics, defaultImbalanceConfig]
  · norm_num [build_metrics, defaultImbalanceConfig]
  · norm_num [build_metrics]
  · have : ¬ ((0:ℝ) > ((defaultImbalanceConfig.zscore_threshold : ℚ) : ℝ)) := by
      norm_num [defaultImbalanceConfig]
    simp [build_metrics, this]
  · intro cfg ring now2 hring
    unfold compute_metrics
    dsimp only
    cases hz : volume_zscore_of_window (windowRows ring (now2 - cfg.volume_window_min * 60 * 1000)) with
    | none =>
      have := zscore_isSome_of_chrono _ (chrono_windowRows ring
        (now2 - cfg.volume_window_min * 60 * 1000) hring)
      rw [hz] at this
      simp at this
    | some z => rfl


/-- Witness for C9: the (sorted) S1 window as ring contents. -/
theorem C9_empty_metrics_and_no_raise_witness :
    Chrono s1_window ∧
    (compute_metrics defaultImbalanceConfig s1_window 30000).isSome :=
  ⟨by norm_num [Chrono, s1_window, List.pairwise_cons],
   (C9_empty_metrics_and_no_raise 0).2.2.2.2.2.2.2.2.2.2 defaultImbalanceConfig s1_window
     30000 (by norm_num [Chrono, s1_window, List.pairwise_cons])⟩

/-- **C6** (confirmed). On any chronologically ordered window,
`compute_volume_zscore`'s window pass computes exactly what the claim
describes: trades are bucketed into 60-second bins keyed by
`⌊(ts − first_ts)/60000⌋`, the most recent bin is `current`, all earlier
bins are history, and the result is `(current − mean(history)) /
stdev(history, ddof=1)` — returning 0 whenever fewer than two bins exist
or the standard deviation is 0 (in particular for a single-bin history,
where the `ddof=1` guard makes the stdev 0). `spec_volume_zscore` is the
claim's wording transcribed directly. -/
theorem C6_volume_zscore_matches_spec (w : List TradeRec) (hw : Chrono w) :
    volume_zscore_of_window w = some (spec_volume_zscore w) := by
  cases w with
  | nil => rfl
  | cons t0 rest =>
    unfold volume_zscore_of_window spec_volume_zscore
    rw [if_neg (by simp)]
    dsimp only
    have hlast0 := bucketIds_getLastD_nonneg t0 rest hw
    rw [if_neg (by omega : ¬ ((bucketIds (t0 :: rest)).getLastD 0 + 1 < 0))]
    have hkey : ⌊(((t0 :: rest).getLastD t0).timestamp - t0.timestamp) / 60000⌋ =
        (bucketIds (t0 :: rest)).getLastD 0 := (bucketIds_getLastD t0 rest).symm
    have hm : ∀ i ∈ bucketIds (t0 :: rest),
        (npIndex (zerosQ ((bucketIds (t0 :: rest)).getLastD 0 + 1).toNat).length i).isSome := by
      intro i hi
      obtain ⟨h0, h1⟩ := chrono_ids_bounds t0 rest hw i hi
      rw [npIndex_some_of_bounds _ i ((bucketIds (t0 :: rest)).getLastD 0) hlast0
        (by simp [zerosQ]) h0 h1]
      rfl
    have hs := (addAt_isSome_iff (bucketIds (t0 :: rest)) ((t0 :: rest).map TradeRec.amount)
      (zerosQ ((bucketIds (t0 :: rest)).getLastD 0 + 1).toNat)
      (by rw [bucketIds_length]; simp)).2 hm
    rcases hadd : addAt (zerosQ ((bucketIds (t0 :: rest)).getLastD 0 + 1).toNat)
        (bucketIds (t0 :: rest)) ((t0 :: rest).map TradeRec.amount) with _ | vols
    · rw [hadd] at hs; simp at hs
    · dsimp only
      have hbins : vols =
          (List.range ((bucketIds (t0 :: rest)).getLastD 0 + 1).toNat).map
            (fun (k : ℕ) => (((t0 :: rest).filter
              (fun t => ⌊(t.timestamp - t0.timestamp) / 60000⌋ = (k : ℤ))).map
                TradeRec.amount).sum) := by
        apply list_ext_getD
        · rw [addAt_length _ _ _ _ hadd]
          simp only [zerosQ, List.length_replicate, List.length_map, List.length_range]
        · intro j
          rw [addAt_getD _ _ _ _ hadd j, range_map_getD]
          have hzero : (zerosQ ((bucketIds (t0 :: rest)).getLastD 0 + 1).toNat).getD j 0 = 0 := by
            simp only [zerosQ, List.getD_eq_getElem?_getD, List.getElem?_replicate]
            split_ifs <;> rfl
          rw [hzero, zero_add]
          have hzl : (zerosQ ((bucketIds (t0 :: rest)).getLastD 0 + 1).toNat).length =
              ((bucketIds (t0 :: rest)).getLastD 0 + 1).toNat := by
            simp [zerosQ]
          rw [hzl]
          have hzip : (bucketIds (t0 :: rest)).zip ((t0 :: rest).map TradeRec.amount) =
              (t0 :: rest).map
                (fun t => (⌊(t.timestamp - t0.timestamp) / 60000⌋, t.amount)) := by
            rw [show bucketIds (t0 :: rest) =
              (t0 :: rest).map (fun t => ⌊(t.timestamp - t0.timestamp) / 60000⌋) from rfl,
              List.zip_map']
          rw [hzip, List.filter_map, List.map_map]
          simp only [Function.comp_def]
          by_cases hj : j < ((bucketIds (t0 :: rest)).getLastD 0 + 1).toNat
          · rw [if_pos hj]
            have hfc : ∀ t ∈ t0 :: rest,
                (decide (npIndex ((bucketIds (t0 :: rest)).getLastD 0 + 1).toNat
                    ⌊(t.timestamp - t0.timestamp) / 60000⌋ = some j)) =
                (decide (⌊(t.timestamp - t0.timestamp) / 60000⌋ = (j : ℤ))) := by
              intro t ht
              have hmem : ⌊(t.timestamp - t0.timestamp) / 60000⌋ ∈ bucketIds (t0 :: rest) := by
                unfold bucketIds
                exact List.mem_map.2 ⟨t, ht, rfl⟩
              obtain ⟨h0, h1⟩ := chrono_ids_bounds t0 rest hw _ hmem
              apply decide_eq_decide.2
              rw [npIndex_some_of_bounds _ _ ((bucketIds (t0 :: rest)).getLastD 0) hlast0 rfl
                h0 h1]
              constructor
              · intro hcon
                injection hcon with hcon2
                omega
              · intro hcon
                rw [Option.some_inj]
                omega
            rw [List.filter_congr hfc]
          · rw [if_neg hj]
            have hnil : ((t0 :: rest).filter (fun t =>
                decide (npIndex ((bucketIds (t0 :: rest)).getLastD 0 + 1).toNat
                  ⌊(t.timestamp - t0.timestamp) / 60000⌋ = some j))) = [] := by
              rw [List.filter_eq_nil]
              intro t ht
              simp only [decide_eq_true_eq]
              intro hcon
              exact absurd (npIndex_lt _ _ _ hcon) (by omega)
            rw [hnil]
            simp
      rw [hkey, ← hbins]
      split_ifs <;> rfl

/-- Witness for C6: the theorem applied to the (sorted) S1 window. -/
theorem C6_volume_zscore_matches_spec_witness :
    Chrono s1_window ∧
    volume_zscore_of_window s1_window = some (spec_volume_zscore s1_window) :=
  ⟨by norm_num [Chrono, s1_window, List.pairwise_cons],
   C6_volume_zscore_matches_spec s1_window
     (by norm_num [Chrono, s1_window, List.pairwise_cons])⟩

end Rhizoo
